import Mathlib

/-!
Shallow embedding of the OpenSeadragon tile cache core
(`src/tilecache.js`: `OpenSeadragon.CacheRecord` and `OpenSeadragon.TileCache`).

Modelling conventions:
* JavaScript values stored in cache payload slots are modelled by `JSValue`,
  which distinguishes `undefined`, `null`, booleans, strings and numbers;
  JS truthiness is `jsTruthy`.
* Promises in the source are always created already resolved
  (`$.Promise.resolve(v)`), or are the result of the synchronous conversion
  chain of `_convert`; a record's `_promise` slot is modelled as
  `Option JSValue` (the resolved value, `none` for the JS `null` written by
  `revive()`/`destroy()`).
* A thrown JS exception (the only one reachable in the modelled code is the
  `TypeError` from dereferencing a `null` `_promise`) is modelled by
  `Except.error`.
* `$.console.assert` / `$.console.error` / `$.console.warn` do not abort or
  throw in the source; where a claim refers to them, the operation returns a
  list of assertion-failure tags, otherwise they are not modelled.
* External side effects with no effect on the cache state
  (`tiledImage._needsDraw = true`, `tile.unload()`,
  `viewer.raiseEvent("tile-unloaded", ...)`) are noted in comments and not
  modelled.
* The conversion registry `$.convertor` is an external collaborator; it is a
  parameter (`Registry`).  Calls into it made by `_convert`/`transformTo` are
  reported in an explicit trace (`RegCall`) so that claims about "registry
  calls" can be stated.
-/

namespace OsdTileCache

/-- JavaScript values as far as the cache core observes them. -/
inductive JSValue where
  | undef : JSValue
  | null : JSValue
  | boolV : Bool → JSValue
  | strV : String → JSValue
  | numV : Int → JSValue
  deriving DecidableEq, Repr

/-- JS truthiness of a modelled value (`!x` in the source is `!(jsTruthy x)`). -/
def jsTruthy : JSValue → Bool
  | .undef => false
  | .null => false
  | .boolV b => b
  | .strV s => s ≠ ""
  | .numV n => n ≠ 0

/-- The `cacheTile` data check: `options.data !== undefined && options.data !== null
&& options.data !== false` (the source comment: "allow anything but undefined,
null, false (other values mean the data was set, for example '0')"). -/
def isValidData (v : JSValue) : Bool :=
  v ≠ JSValue.undef && v ≠ JSValue.null && v ≠ JSValue.boolV false

/-- TiledImage contract consumed by the cache: identity plus the `_zombieCache`
flag (the `_needsDraw` flag and `viewer` are write-only / event-only here and
not modelled). -/
structure TiledImage where
  id : Nat
  zombieCache : Bool
  deriving DecidableEq, Repr

/-- Tile contract consumed by the cache (external collaborator): the attribute
snapshot the cache reads during one call.  `caches` is the key list iterated by
`unloadTile` (`for (let key in tile._caches)`), `cacheSize` is the value of the
external method `tile.getCacheSize()` at call time. -/
structure Tile where
  id : Nat
  cacheKey : String
  level : Nat
  lastTouchTime : Nat
  beingDrawn : Bool
  loaded : Bool
  tiledImage : TiledImage
  caches : List String
  cacheSize : Nat
  deriving DecidableEq, Repr

/-- One cached data record (`$.CacheRecord`).  Fields mirror the source:
`_tiles`, `_data`, `_type`, `loaded`, `_promise`, `_destroyed`.  The source
nulls `_tiles` out on `destroy()`; since every later read of `_tiles` is either
guarded by `_destroyed` or maps `null` to `0` (`getTileCount`), the nulled
state is represented by `[]`.  The `_conversionJobQueue` of deferred jobs is
not represented: its entries only run through the asynchronous drain
(`_checkAwaitsConvert`, a `setTimeout`), outside the synchronous semantics
modelled here, and no modelled field is touched when a job is merely queued. -/
structure CacheRecord where
  tiles : List Tile
  data : JSValue
  type : Option String
  loaded : Bool
  promise : Option JSValue
  destroyed : Bool
  deriving DecidableEq, Repr

namespace CacheRecord

/-- Operation `revive()`: reset to the initial empty state (`_tiles = []`, `_data = null`,
`_type = null`, `loaded = false`, `_promise = null`, `_destroyed = false`). -/
def revive (_r : CacheRecord) : CacheRecord :=
  { tiles := [], data := .null, type := none, loaded := false,
    promise := none, destroyed := false }

/-- Constructor `new $.CacheRecord()` — the constructor only calls `this.revive()`. -/
def fresh : CacheRecord :=
  { tiles := [], data := .null, type := none, loaded := false,
    promise := none, destroyed := false }

/-- Operation `getTileCount()`: `this._tiles ? this._tiles.length : 0`. -/
def getTileCount (r : CacheRecord) : Nat :=
  r.tiles.length

/-- Operation `removeTile(tile)`: returns the updated record and the boolean result.
The source loop removes the first `===`-equal entry and returns `true`;
on a destroyed record, or when the tile is absent (after a `console.warn`),
it returns `false` without mutating. -/
def removeTile (r : CacheRecord) (tile : Tile) : CacheRecord × Bool :=
  if r.destroyed then (r, false)
  else if r.tiles.contains tile then
    ({ r with tiles := r.tiles.erase tile }, true)
  else (r, false)

/-- Operation `addTile(tile, data, type)`: no-op when destroyed; detach-then-reattach when
the tile is already present; adopt `(data, type)` as initial payload when not
loaded; always append the tile. -/
def addTile (r : CacheRecord) (tile : Tile) (data : JSValue) (type_ : String) :
    CacheRecord :=
  if r.destroyed then r
  else
    let r1 :=
      if r.tiles.contains tile then (r.removeTile tile).1
      else if !r.loaded then
        { r with type := some type_, promise := some data, data := data,
                 loaded := true }
      else r
    { r1 with tiles := r1.tiles ++ [tile] }

/-- Operation `destroy()`: set `_destroyed`, release the payload.  In the `loaded` branch
the fields are nulled synchronously; in the `!loaded` branch the source runs
`this._promise.then(...)` — a `TypeError` when `_promise` is `null` (a record
that has never been populated), modelled as `Except.error`.  For a resolved
promise the continuation (destroy the old value via the registry, null the
fields unless revived meanwhile) is modelled as running immediately; the
registry `destroy(data, type)` call is a type-specific resource release with no
effect on the modelled fields. -/
def destroy (r : CacheRecord) : Except String CacheRecord :=
  -- delete this._conversionJobQueue; this._destroyed = true
  let r1 : CacheRecord := { r with destroyed := true }
  if r1.loaded then
    -- $.convertor.destroy(this._data, this._type); null the fields
    .ok { r1 with tiles := [], data := .null, type := none, promise := none,
                  loaded := false }
  else
    match r1.promise with
    | none => .error "TypeError: this._promise is null"
    | some _ =>
        -- this._promise.then(x => { $.convertor.destroy(x, oldType);
        --   if (!this._destroyed) return; null the fields })
        .ok { r1 with tiles := [], data := .null, type := none, promise := none,
                      loaded := false }

/-- Operation `await()`: `this._promise` if present, else an immediately resolved empty
promise (`$.Promise.resolve()`, i.e. resolving `undefined`). -/
def await (r : CacheRecord) : JSValue :=
  match r.promise with
  | none => .undef
  | some v => v

end CacheRecord

/-- One edge of a conversion path as consumed by `_convert`: the source reads
`edge.origin.value` (the origin node's type string) and calls
`edge.transform(x)`; the eventual returned by `transform` is modelled by its
resolved value. -/
structure Edge where
  origin : String
  target : String
  transform : JSValue → JSValue

/-- The conversion registry collaborator (`$.convertor`), restricted to the
fields the embedded code consumes.  `getConversionPath` returns `none` for a
falsy JS result (no route) and `some path` for an array — note a JS empty
array is truthy, hence distinct from `none`. -/
structure Registry where
  getConversionPath : String → String → Option (List Edge)
  guessType : JSValue → String

/-- A call made into the registry, for claims about registry traffic. -/
inductive RegCall where
  | getPath : String → String → RegCall
  | transform : String → JSValue → RegCall
  | destroyData : JSValue → String → RegCall
  deriving DecidableEq, Repr

/-- The recursive `convert(x, i)` closure inside `_convert`: walk the edges;
at the end install the final value and set `loaded` (the `_checkAwaitsConvert`
drain is queue-only, see `CacheRecord`); when an edge's result is falsy the
source assigns `_this._data = from` (the format string!), `_this._type = from`,
`loaded = true` and resolves with `originalData`; otherwise it destroys the
intermediate (`convertor.destroy(x, edge.origin.value)`) and recurses.
Returns the updated record, the resolved value of the chain and the registry
calls made. -/
def convertChain (orig : JSValue) (from_ : String) :
    List Edge → CacheRecord → JSValue → CacheRecord × JSValue × List RegCall
  | [], r, x =>
      ({ r with data := x, loaded := true }, x, [])
  | e :: rest, r, x =>
      let y := e.transform x
      if jsTruthy y then
        let (r2, res, calls) := convertChain orig from_ rest r y
        (r2, res, .transform e.origin x :: .destroyData x e.origin :: calls)
      else
        ({ r with data := .strV from_, type := some from_, loaded := true },
         orig, [.transform e.origin x])

namespace CacheRecord

/-- Operation `_convert(from, to)`: ask the registry for a path; a falsy result is a
logged no-op; otherwise speculatively set `loaded = false`, `_data = undefined`,
`_type = to`, run the chain on the original data and install the resulting
promise. -/
def convert (reg : Registry) (r : CacheRecord) (from_ to_ : String) :
    CacheRecord × List RegCall :=
  match reg.getConversionPath from_ to_ with
  | none => (r, [.getPath from_ to_])
  | some conversionPath =>
      let originalData := r.data
      let r1 : CacheRecord :=
        { r with loaded := false, data := .undef, type := some to_ }
      let (r2, res, calls) := convertChain originalData from_ conversionPath r1 originalData
      ({ r2 with promise := some res }, .getPath from_ to_ :: calls)

/-- Result of `transformTo`: either a fresh pending promise handed back while
the job sits in `_conversionJobQueue`, or the record's `_promise`. -/
inductive EventualResult where
  | pending : EventualResult
  | fromPromise : Option JSValue → EventualResult
  deriving DecidableEq, Repr

/-- Operation `transformTo(type)`: when `loaded` and the type already matches, return
`this._promise` unchanged; when not loaded, push a job on the conversion queue
and return a new pending promise (the queued job runs only through the
asynchronous drain, so the modelled fields are unchanged); otherwise run
`_convert` and return the new `this._promise`. -/
def transformTo (reg : Registry) (r : CacheRecord) (type_ : String) :
    CacheRecord × EventualResult × List RegCall :=
  if !r.loaded || some type_ ≠ r.type then
    if !r.loaded then
      (r, .pending, [])
    else
      let (r2, calls) := r.convert reg (r.type.getD "") type_
      (r2, .fromPromise r2.promise, calls)
  else
    (r, .fromPromise r.promise, [])

end CacheRecord

/-! ### String-keyed maps

`this._cachesLoaded` and `this._zombiesLoaded` are plain JS objects used as
string-keyed maps.  They are modelled as association lists in key insertion
order, which is also the `for (let k in obj)` iteration order for non-index
string keys: `aset` overwrites in place or appends a new key at the end,
`aerase` models `delete obj[k]`. -/

/-- Map read `obj[k]`, a lookup (`undefined`, i.e. `none`, when absent). -/
def alookup : List (String × CacheRecord) → String → Option CacheRecord
  | [], _ => none
  | (k, v) :: rest, key => if k = key then some v else alookup rest key

/-- Map write `obj[k] = v`: overwrite an existing key in place, else append. -/
def aset : List (String × CacheRecord) → String → CacheRecord →
    List (String × CacheRecord)
  | [], key, v => [(key, v)]
  | (k, w) :: rest, key, v =>
      if k = key then (key, v) :: rest else (k, w) :: aset rest key v

/-- Map removal `delete obj[k]`: drop the first entry with the key. -/
def aerase : List (String × CacheRecord) → String → List (String × CacheRecord)
  | [], _ => []
  | (k, w) :: rest, key => if k = key then rest else (k, w) :: aerase rest key

/-! ### TileCache -/

/-- The `$.TileCache` state: the live map, the zombie map, their explicitly
maintained counters (`Int`, since the source only ever applies `++`/`--`), the
eviction-candidate tile sequence and the capacity
(`options.maxImageCacheCount || $.DEFAULT_SETTINGS.maxImageCacheCount`). -/
structure TileCacheState where
  cachesLoaded : List (String × CacheRecord)
  zombiesLoaded : List (String × CacheRecord)
  cachesLoadedCount : Int
  zombiesLoadedCount : Int
  tilesLoaded : List Tile
  maxCacheItemCount : Nat
  deriving DecidableEq, Repr

/-- The constructor's state for a given resolved `maxImageCacheCount`. -/
def initialState (cap : Nat) : TileCacheState :=
  { cachesLoaded := [], zombiesLoaded := [], cachesLoadedCount := 0,
    zombiesLoadedCount := 0, tilesLoaded := [], maxCacheItemCount := cap }

namespace TileCache

/-- Operation `numTilesLoaded()`. -/
def numTilesLoaded (st : TileCacheState) : Nat :=
  st.tilesLoaded.length

/-- Operation `numCachesLoaded()`: `this._zombiesLoadedCount + this._cachesLoadedCount`. -/
def numCachesLoaded (st : TileCacheState) : Int :=
  st.zombiesLoadedCount + st.cachesLoadedCount

/-- Operation `getCacheRecord(cacheKey)`: `this._cachesLoaded[cacheKey] || this._zombiesLoaded[cacheKey]`. -/
def getCacheRecord (st : TileCacheState) (cacheKey : String) : Option CacheRecord :=
  match alookup st.cachesLoaded cacheKey with
  | some r => some r
  | none => alookup st.zombiesLoaded cacheKey

/-- Operation `unloadCacheForTile(tile, key, destroy)`: decouple one tile from one key.
Returns the new state and the boolean result.  The missing-cache and
tile-not-in-record branches only log (`warn` / `error`) and return `false`. -/
def unloadCacheForTile (st : TileCacheState) (tile : Tile) (key : String)
    (destroy_ : Bool) : Except String (TileCacheState × Bool) :=
  match alookup st.cachesLoaded key with
  | none => .ok (st, false)
  | some cacheRecord =>
      let (rec2, removed) := cacheRecord.removeTile tile
      if removed then
        if rec2.getTileCount = 0 then
          if destroy_ then
            -- #1 tile marked as destroyed
            match rec2.destroy with
            | .error e => .error e
            | .ok _ =>
              .ok ({ st with cachesLoaded := aerase st.cachesLoaded key,
                             cachesLoadedCount := st.cachesLoadedCount - 1 }, true)
          else
            -- #2 tile is a zombie: keep the record for reuse
            .ok ({ st with zombiesLoaded := aset st.zombiesLoaded key rec2,
                           zombiesLoadedCount := st.zombiesLoadedCount + 1,
                           cachesLoaded := aerase st.cachesLoaded key,
                           cachesLoadedCount := st.cachesLoadedCount - 1 }, true)
        else
          .ok ({ st with cachesLoaded := aset st.cachesLoaded key rec2 }, true)
      else .ok (st, false)

/-- The `for (let key in tile._caches)` loop of `unloadTile`. -/
def unloadCachesLoop (tile : Tile) (destroy_ : Bool) :
    TileCacheState → List String → Except String TileCacheState
  | st, [] => .ok st
  | st, key :: rest =>
      match unloadCacheForTile st tile key destroy_ with
      | .error e => .error e
      | .ok (st2, _) => unloadCachesLoop tile destroy_ st2 rest

/-- Operation `unloadTile(tile, destroy, deleteAtIndex)`: unload each of the tile's cache
keys, optionally splice `tilesLoaded` at the given index; then `tile.unload()`
and the viewer `tile-unloaded` event fire (external, not modelled). -/
def unloadTile (st : TileCacheState) (tile : Tile) (destroy_ : Bool)
    (deleteAtIndex : Option Nat) : Except String TileCacheState :=
  match unloadCachesLoop tile destroy_ st tile.caches with
  | .error e => .error e
  | .ok st2 =>
      match deleteAtIndex with
      | some i => .ok { st2 with tilesLoaded := st2.tilesLoaded.eraseIdx i }
      | none => .ok st2

/-- One step of the worst-tile scan in `cacheTile`: skip tiles at or below the
cutoff or being drawn; keep the accumulated worst unless the scanned tile has a
strictly older `lastTouchTime`, or an equal time and strictly higher level. -/
def worstStep (cutoff : Nat) (acc : Option (Tile × Nat)) (entry : Nat × Tile) :
    Option (Tile × Nat) :=
  let (i, prevTile) := entry
  if prevTile.level ≤ cutoff || prevTile.beingDrawn then acc
  else
    match acc with
    | none => some (prevTile, i)
    | some (worstTile, _) =>
        if prevTile.lastTouchTime < worstTile.lastTouchTime ||
            (prevTile.lastTouchTime = worstTile.lastTouchTime &&
             worstTile.level < prevTile.level) then
          some (prevTile, i)
        else acc

/-- The victim scan of `cacheTile`: `for (let i = this._tilesLoaded.length - 1;
i >= 0; i--)` over `(index, tile)` pairs, returning the worst tile and its
index if any admissible tile exists. -/
def findWorst (tilesLoaded : List Tile) (cutoff : Nat) : Option (Tile × Nat) :=
  (tilesLoaded.enum.reverse).foldl (worstStep cutoff) none

/-- Where the record found/created by the lookup phase of `cacheTile` lives, so
that the in-place JS mutation done by `addTile` can be written back. -/
inductive WriteLoc where
  | liveMap : WriteLoc
  | zombieMap : WriteLoc
  | detached : WriteLoc
  deriving DecidableEq, Repr

/-- The lookup/creation phase of `cacheTile` (up to and including the
`let cacheRecord = ... ; if (!cacheRecord) {...} else if (cacheRecord._destroyed) {...}`
block).  Returns the updated state, the record the local `cacheRecord` variable
refers to, where it lives, the (possibly `options.image`-substituted) data, and
the assertion failures logged. -/
def cacheTileLookup (st : TileCacheState) (cacheKey : String)
    (data image : JSValue) :
    TileCacheState × CacheRecord × WriteLoc × JSValue × List String :=
  match alookup st.cachesLoaded cacheKey with
  | some rec => (st, rec, .liveMap, data, [])
  | none =>
      match alookup st.zombiesLoaded cacheKey with
      | some rec =>
          if rec.destroyed then
            -- revive; remove from zombies (the record is not re-installed in
            -- the live map, so further mutation of it is not map-visible)
            ({ st with zombiesLoaded := aerase st.zombiesLoaded cacheKey,
                       zombiesLoadedCount := st.zombiesLoadedCount - 1 },
             rec.revive, .detached, data, [])
          else (st, rec, .zombieMap, data, [])
      | none =>
          -- options.data === undefined → deprecated options.image fallback
          let effData := if data = .undef then image else data
          let fails := if isValidData effData then [] else ["dataRequired"]
          ({ st with cachesLoaded := aset st.cachesLoaded cacheKey CacheRecord.fresh,
                     cachesLoadedCount := st.cachesLoadedCount + 1 },
           CacheRecord.fresh, .liveMap, effData, fails)

/-- Write the mutated record back to wherever the JS object lives. -/
def writeRecord (st : TileCacheState) (loc : WriteLoc) (cacheKey : String)
    (rec : CacheRecord) : TileCacheState :=
  match loc with
  | .liveMap => { st with cachesLoaded := aset st.cachesLoaded cacheKey rec }
  | .zombieMap => { st with zombiesLoaded := aset st.zombiesLoaded cacheKey rec }
  | .detached => st

/-- The eviction pass of `cacheTile`: when over capacity, destroy the first
zombie in iteration order if any are counted, else unload the worst admissible
live tile.  Returns the new state and `worstTileIndex` (as `Option`). -/
def evictionPass (st : TileCacheState) (cutoff : Nat) :
    Except String (TileCacheState × Option Nat) :=
  if st.cachesLoadedCount + st.zombiesLoadedCount > (st.maxCacheItemCount : Int) then
    if st.zombiesLoadedCount > 0 then
      match st.zombiesLoaded with
      | [] => .ok (st, none)   -- for-in over an empty object: body never runs
      | (zk, zrec) :: _ =>
          match zrec.destroy with
          | .error e => .error e
          | .ok _ =>
              .ok ({ st with zombiesLoaded := aerase st.zombiesLoaded zk,
                             zombiesLoadedCount := st.zombiesLoadedCount - 1 },
                   none)
    else
      match findWorst st.tilesLoaded cutoff with
      | none => .ok (st, none)
      | some (worstTile, worstTileIndex) =>
          match unloadTile st worstTile true none with
          | .error e => .error e
          | .ok st2 => .ok (st2, some worstTileIndex)
  else .ok (st, none)

/-- Assignment `this._tilesLoaded[insertionIndex] = theTile`: in-place overwrite when the
index is in range (the reused victim slot), append when it equals the length. -/
def setOrAppend (l : List Tile) (i : Nat) (t : Tile) : List Tile :=
  if i < l.length then l.set i t else l ++ [t]

/-- The final bookkeeping of `cacheTile`: `insertionIndex` is the entry length
of `tilesLoaded` unless a victim slot was freed. -/
def insertionBookkeeping (st : TileCacheState) (theTile : Tile)
    (entryLen : Nat) (worstIdx : Option Nat) : TileCacheState :=
  let insertionIndex := match worstIdx with
    | some wi => wi
    | none => entryLen
  if theTile.cacheSize = 0 then
    { st with tilesLoaded := setOrAppend st.tilesLoaded insertionIndex theTile }
  else
    match worstIdx with
    | some _ => { st with tilesLoaded := st.tilesLoaded.eraseIdx insertionIndex }
    | none => st

/-- Key resolution `options.cacheKey || theTile.cacheKey` (JS `||`: the empty string is falsy). -/
def jsOrStr (a : Option String) (b : String) : String :=
  match a with
  | some s => if s = "" then b else s
  | none => b

/-- Fallback `if (!options.dataType) { options.dataType = $.convertor.guessType(options.data) }`. -/
def resolvedDataType (reg : Registry) (dataType : Option String) (data : JSValue) :
    String :=
  match dataType with
  | some s => if s = "" then reg.guessType data else s
  | none => reg.guessType data

/-- The argument object of `cacheTile`. -/
structure CacheTileOptions where
  tile : Tile
  cacheKey : Option String
  data : JSValue
  image : JSValue
  dataType : Option String
  cutoff : Option Nat
  deriving Repr

/-- Result of `cacheTile`: the state, the returned record, and the assertion
failures logged on the way (the source's `$.console.assert` only logs). -/
structure CacheTileOut where
  state : TileCacheState
  record : CacheRecord
  assertFailures : List String
  deriving DecidableEq, Repr

/-- Operation `cacheTile(options)`: lookup/create/revive the record for the resolved key,
attach the tile, then run the eviction pass and the `tilesLoaded` bookkeeping.
(`theTile.tiledImage._needsDraw = true` when the key is the tile's own key is an
external side effect, not modelled.) -/
def cacheTile (reg : Registry) (st : TileCacheState) (opts : CacheTileOptions) :
    Except String CacheTileOut :=
  let theTile := opts.tile
  let keyFails := if theTile.cacheKey = "" then ["cacheKeyRequired"] else []
  let cutoff := opts.cutoff.getD 0
  let insertionEntryLen := st.tilesLoaded.length
  let cacheKey := jsOrStr opts.cacheKey theTile.cacheKey
  let (st1, rec, loc, effData, fails) := cacheTileLookup st cacheKey opts.data opts.image
  let dataType := resolvedDataType reg opts.dataType effData
  let rec2 := rec.addTile theTile effData dataType
  let st2 := writeRecord st1 loc cacheKey rec2
  match evictionPass st2 cutoff with
  | .error e => .error e
  | .ok (st3, worstIdx) =>
      .ok { state := insertionBookkeeping st3 theTile insertionEntryLen worstIdx,
            record := rec2,
            assertFailures := keyFails ++ fails }

/-- The `for (let zombie in this._zombiesLoaded) { destroy; delete }` purge in
`clearTilesFor`. -/
def destroyAll : List (String × CacheRecord) → Except String Unit
  | [] => .ok ()
  | (_, r) :: rest =>
      match r.destroy with
      | .error e => .error e
      | .ok _ => destroyAll rest

/-- The backward walk of `clearTilesFor` over `tilesLoaded`: index `i+1`
examines position `i` of the current list.  Unfinished tiles are spliced out
directly; the others are unloaded (with
`destroy = !tiledImage._zombieCache || cacheOverflows`).  The source's inner
`else if (tile.tiledImage === tiledImage)` repeats the outer condition and is
collapsed. -/
def clearLoop (ti : TiledImage) (overflow : Bool) :
    TileCacheState → Nat → Except String TileCacheState
  | st, 0 => .ok st
  | st, i + 1 =>
      match st.tilesLoaded[i]? with
      | none => clearLoop ti overflow st i
      | some tile =>
          if tile.tiledImage = ti then
            if !tile.loaded then
              clearLoop ti overflow
                { st with tilesLoaded := st.tilesLoaded.eraseIdx i } i
            else
              match unloadTile st tile (!ti.zombieCache || overflow) (some i) with
              | .error e => .error e
              | .ok st2 => clearLoop ti overflow st2 i
          else clearLoop ti overflow st i

/-- Operation `clearTilesFor(tiledImage)`: optionally purge all zombies (note the source
tests `tiledImage._zombieCache && cacheOverflows && zombiesLoadedCount > 0`),
recompute the overflow flag, then walk `tilesLoaded` backward. -/
def clearTilesFor (st : TileCacheState) (ti : TiledImage) :
    Except String TileCacheState :=
  let cacheOverflows :=
    st.cachesLoadedCount + st.zombiesLoadedCount > (st.maxCacheItemCount : Int)
  if ti.zombieCache ∧ cacheOverflows ∧ st.zombiesLoadedCount > 0 then
    match destroyAll st.zombiesLoaded with
    | .error e => .error e
    | .ok _ =>
        let st2 : TileCacheState := { st with zombiesLoaded := [], zombiesLoadedCount := 0 }
        clearLoop ti (decide (st2.cachesLoadedCount > (st2.maxCacheItemCount : Int)))
          st2 st2.tilesLoaded.length
  else
    clearLoop ti (decide cacheOverflows) st st.tilesLoaded.length

end TileCache

/-! ### Operation steps and reachability -/

open TileCache in
/-- One public `TileCache` operation, relating pre- and post-states (only
completed, non-throwing calls produce a step). -/
inductive Step (reg : Registry) : TileCacheState → TileCacheState → Prop
  | cacheTileStep (st : TileCacheState) (opts : CacheTileOptions)
      (out : CacheTileOut) (h : cacheTile reg st opts = .ok out) :
      Step reg st out.state
  | unloadCacheForTileStep (st : TileCacheState) (tile : Tile) (key : String)
      (d : Bool) (out : TileCacheState × Bool)
      (h : unloadCacheForTile st tile key d = .ok out) :
      Step reg st out.1
  | unloadTileStep (st : TileCacheState) (tile : Tile) (d : Bool)
      (idx : Option Nat) (st2 : TileCacheState)
      (h : unloadTile st tile d idx = .ok st2) :
      Step reg st st2
  | clearTilesForStep (st : TileCacheState) (ti : TiledImage)
      (st2 : TileCacheState) (h : clearTilesFor st ti = .ok st2) :
      Step reg st st2

/-- States reachable from a freshly constructed cache by public operations. -/
inductive Reachable (reg : Registry) : TileCacheState → Prop
  | init (cap : Nat) : Reachable reg (initialState cap)
  | step {st st2 : TileCacheState} (h1 : Reachable reg st)
      (h2 : Step reg st st2) : Reachable reg st2

/-! ### Association-list lemmas -/

theorem alookup_mem {m : List (String × CacheRecord)} {k : String}
    {v : CacheRecord} (h : alookup m k = some v) : (k, v) ∈ m := by
  induction m with
  | nil => simp [alookup] at h
  | cons kv rest ih =>
      obtain ⟨k0, v0⟩ := kv
      by_cases hk : k0 = k
      · subst hk
        simp [alookup] at h
        simp [h]
      · simp [alookup, hk] at h
        exact List.mem_cons_of_mem _ (ih h)

theorem alookup_eq_none_iff {m : List (String × CacheRecord)} {k : String} :
    alookup m k = none ↔ k ∉ m.map Prod.fst := by
  induction m with
  | nil => simp [alookup]
  | cons kv rest ih =>
      obtain ⟨k0, v0⟩ := kv
      by_cases hk : k0 = k
      · subst hk; simp [alookup]
      · simp only [alookup, if_neg hk, List.map_cons, List.mem_cons, ih]
        constructor
        · intro h hcon
          rcases hcon with h1 | h1
          · exact hk h1.symm
          · exact h h1
        · intro h h1
          exact h (Or.inr h1)

theorem mem_aset {m : List (String × CacheRecord)} {k : String}
    {v : CacheRecord} {kr : String × CacheRecord} (h : kr ∈ aset m k v) :
    kr = (k, v) ∨ kr ∈ m := by
  induction m with
  | nil => simpa [aset] using h
  | cons kv rest ih =>
      obtain ⟨k0, v0⟩ := kv
      by_cases hk : k0 = k
      · subst hk
        rcases (by simpa [aset] using h : kr = (k0, v) ∨ kr ∈ rest) with h1 | h1
        · exact Or.inl h1
        · exact Or.inr (List.mem_cons_of_mem _ h1)
      · rcases (by simpa [aset, hk] using h : kr = (k0, v0) ∨ kr ∈ aset rest k v)
          with h1 | h1
        · exact Or.inr (by simp [h1])
        · rcases ih h1 with h2 | h2
          · exact Or.inl h2
          · exact Or.inr (List.mem_cons_of_mem _ h2)

theorem alookup_aset_self {m : List (String × CacheRecord)} {k : String}
    {v : CacheRecord} : alookup (aset m k v) k = some v := by
  induction m with
  | nil => simp [aset, alookup]
  | cons kv rest ih =>
      obtain ⟨k0, v0⟩ := kv
      by_cases hk : k0 = k
      · subst hk; simp [aset, alookup]
      · simp [aset, alookup, hk, ih]

theorem alookup_aset_ne {m : List (String × CacheRecord)} {k k' : String}
    {v : CacheRecord} (h : k' ≠ k) :
    alookup (aset m k v) k' = alookup m k' := by
  have hne : k ≠ k' := fun e => h e.symm
  induction m with
  | nil => simp [aset, alookup, hne]
  | cons kv rest ih =>
      obtain ⟨k0, v0⟩ := kv
      by_cases hk : k0 = k
      · subst hk; simp [aset, alookup, hne]
      · by_cases hk' : k0 = k'
        · subst hk'; simp [aset, alookup, hk]
        · simp [aset, alookup, hk, hk', ih]

theorem aset_absent {m : List (String × CacheRecord)} {k : String}
    {v : CacheRecord} (h : alookup m k = none) : aset m k v = m ++ [(k, v)] := by
  induction m with
  | nil => simp [aset]
  | cons kv rest ih =>
      obtain ⟨k0, v0⟩ := kv
      by_cases hk : k0 = k
      · subst hk; simp [alookup] at h
      · simp [alookup, hk] at h
        simp [aset, hk, ih h]

theorem keys_aset_of_mem {m : List (String × CacheRecord)} {k : String}
    {v w : CacheRecord} (h : alookup m k = some w) :
    (aset m k v).map Prod.fst = m.map Prod.fst := by
  induction m with
  | nil => simp [alookup] at h
  | cons kv rest ih =>
      obtain ⟨k0, v0⟩ := kv
      by_cases hk : k0 = k
      · subst hk; simp [aset]
      · simp [alookup, hk] at h
        simp [aset, hk, ih h]

theorem aset_aset {m : List (String × CacheRecord)} {k : String}
    {a b : CacheRecord} : aset (aset m k a) k b = aset m k b := by
  induction m with
  | nil => simp [aset]
  | cons kv rest ih =>
      obtain ⟨k0, v0⟩ := kv
      by_cases hk : k0 = k
      · subst hk; simp [aset]
      · simp [aset, hk, ih]

theorem aerase_sublist (m : List (String × CacheRecord)) (k : String) :
    (aerase m k).Sublist m := by
  induction m with
  | nil => simp [aerase]
  | cons kv rest ih =>
      obtain ⟨k0, v0⟩ := kv
      by_cases hk : k0 = k
      · rw [aerase, if_pos hk]
        exact List.sublist_cons_self (k0, v0) rest
      · rw [aerase, if_neg hk]
        exact List.Sublist.cons₂ (k0, v0) ih

theorem mem_aerase {m : List (String × CacheRecord)} {k : String}
    {kr : String × CacheRecord} (h : kr ∈ aerase m k) : kr ∈ m :=
  (aerase_sublist m k).subset h

theorem length_aerase {m : List (String × CacheRecord)} {k : String}
    {v : CacheRecord} (h : alookup m k = some v) :
    (aerase m k).length + 1 = m.length := by
  induction m with
  | nil => simp [alookup] at h
  | cons kv rest ih =>
      obtain ⟨k0, v0⟩ := kv
      by_cases hk : k0 = k
      · subst hk; simp [aerase]
      · simp [alookup, hk] at h
        simp [aerase, hk, ih h]

theorem mem_aerase_ne {m : List (String × CacheRecord)} {k : String}
    {kr : String × CacheRecord} (hn : (m.map Prod.fst).Nodup)
    (h : kr ∈ aerase m k) : kr.1 ≠ k := by
  induction m with
  | nil => simp [aerase] at h
  | cons kv rest ih =>
      obtain ⟨k0, v0⟩ := kv
      simp only [List.map_cons, List.nodup_cons] at hn
      by_cases hk : k0 = k
      · subst hk
        simp only [aerase, if_pos rfl] at h
        intro hkr
        exact hn.1 (by simpa [hkr] using List.mem_map_of_mem Prod.fst h)
      · simp only [aerase, if_neg hk] at h
        rcases List.mem_cons.mp h with h1 | h1
        · subst h1; exact hk
        · exact ih hn.2 h1

theorem alookup_aerase_ne {m : List (String × CacheRecord)} {k k' : String}
    (h : k' ≠ k) : alookup (aerase m k) k' = alookup m k' := by
  have hne : k ≠ k' := fun e => h e.symm
  induction m with
  | nil => simp [aerase]
  | cons kv rest ih =>
      obtain ⟨k0, v0⟩ := kv
      by_cases hk : k0 = k
      · subst hk; simp [aerase, alookup, hne]
      · simp [aerase, alookup, hk, ih]

/-! ### Record-level lemmas -/

/-- Record health required of entries of the live map: not destroyed, loaded,
promise present, at least one referring tile. -/
def recLiveOk (r : CacheRecord) : Prop :=
  r.destroyed = false ∧ r.loaded = true ∧ r.promise.isSome = true ∧
    1 ≤ r.tiles.length

/-- Record health required of entries of the zombie map: not destroyed, loaded,
promise present. -/
def recZombieOk (r : CacheRecord) : Prop :=
  r.destroyed = false ∧ r.loaded = true ∧ r.promise.isSome = true

instance (r : CacheRecord) : Decidable (recLiveOk r) := by
  unfold recLiveOk; infer_instance

instance (r : CacheRecord) : Decidable (recZombieOk r) := by
  unfold recZombieOk; infer_instance

theorem removeTile_fst (r : CacheRecord) (t : Tile) :
    (r.removeTile t).1 =
      if r.destroyed = false ∧ r.tiles.contains t then
        { r with tiles := r.tiles.erase t }
      else r := by
  unfold CacheRecord.removeTile
  by_cases hd : r.destroyed
  · simp [hd]
  · simp only [Bool.not_eq_true] at hd
    simp only [hd, Bool.false_eq_true, if_false, true_and]
    split <;> rfl

/-- On a record that is not destroyed and is loaded, `addTile` only appends the
tile (after a detach when it was already present). -/
theorem addTile_loaded_eq (r : CacheRecord) (t : Tile) (d : JSValue)
    (ty : String) (h1 : r.destroyed = false) (h2 : r.loaded = true) :
    r.addTile t d ty =
      { r with tiles :=
          (if r.tiles.contains t then r.tiles.erase t else r.tiles) ++ [t] } := by
  unfold CacheRecord.addTile
  simp only [h1, Bool.false_eq_true, if_false, removeTile_fst, true_and, h2,
    Bool.not_true]
  split
  · rfl
  · rw [h1, h2]

/-- On a fresh record, `addTile` adopts the payload and attaches the tile. -/
theorem addTile_fresh_eq (t : Tile) (d : JSValue) (ty : String) :
    CacheRecord.fresh.addTile t d ty =
      { tiles := [t], data := d, type := some ty, loaded := true,
        promise := some d, destroyed := false } := by
  simp [CacheRecord.addTile, CacheRecord.fresh]

/-- On any non-destroyed record, `addTile` attaches the tile. -/
theorem addTile_mem (r : CacheRecord) (t : Tile) (d : JSValue) (ty : String)
    (h : r.destroyed = false) : t ∈ (r.addTile t d ty).tiles := by
  unfold CacheRecord.addTile
  simp [h]

theorem addTile_recLiveOk {r : CacheRecord} (t : Tile) (d : JSValue)
    (ty : String) (h : recLiveOk r) : recLiveOk (r.addTile t d ty) := by
  obtain ⟨h1, h2, h3, _⟩ := h
  rw [addTile_loaded_eq r t d ty h1 h2]
  exact ⟨h1, h2, h3, by simp⟩

theorem addTile_recZombieOk {r : CacheRecord} (t : Tile) (d : JSValue)
    (ty : String) (h : recZombieOk r) : recZombieOk (r.addTile t d ty) := by
  obtain ⟨h1, h2, h3⟩ := h
  rw [addTile_loaded_eq r t d ty h1 h2]
  exact ⟨h1, h2, h3⟩

theorem addTile_fresh_recLiveOk (t : Tile) (d : JSValue) (ty : String) :
    recLiveOk (CacheRecord.fresh.addTile t d ty) := by
  rw [addTile_fresh_eq]
  exact ⟨rfl, rfl, rfl, by simp⟩

/-- The field state a completed `destroy()` leaves behind. -/
def deadRecord : CacheRecord :=
  { tiles := [], data := .null, type := none, loaded := false,
    promise := none, destroyed := true }

/-- The `destroy()` call succeeds on every loaded record. -/
theorem destroy_of_loaded {r : CacheRecord} (h : r.loaded = true) :
    r.destroy = .ok deadRecord := by
  unfold CacheRecord.destroy deadRecord
  simp [h]

/-! ### The cache-wide invariant -/

/-- The inductive invariant of reachable `TileCache` states: the two maps have
duplicate-free, disjoint key sets, the counters agree with the map sizes, every
live record is healthy with at least one tile, and every zombie record is
healthy (note: nothing bounds a zombie's tile count — `cacheTile` on a key held
by a zombie attaches the tile to the record while it stays in the zombie map). -/
def TileCacheInv (st : TileCacheState) : Prop :=
  (st.cachesLoaded.map Prod.fst).Nodup ∧
  (st.zombiesLoaded.map Prod.fst).Nodup ∧
  (∀ kr ∈ st.cachesLoaded, alookup st.zombiesLoaded kr.1 = none) ∧
  st.cachesLoadedCount = (st.cachesLoaded.length : Int) ∧
  st.zombiesLoadedCount = (st.zombiesLoaded.length : Int) ∧
  (∀ kr ∈ st.cachesLoaded, recLiveOk kr.2) ∧
  (∀ kr ∈ st.zombiesLoaded, recZombieOk kr.2)

instance (st : TileCacheState) : Decidable (TileCacheInv st) := by
  unfold TileCacheInv; infer_instance

theorem initialState_inv (cap : Nat) : TileCacheInv (initialState cap) := by
  refine ⟨?_, ?_, ?_, ?_, ?_, ?_, ?_⟩ <;> simp [initialState]

/-! ### Invariant preservation -/

theorem unloadCacheForTile_total (st : TileCacheState) (tile : Tile)
    (key : String) (d : Bool) (hInv : TileCacheInv st) :
    ∃ out, TileCache.unloadCacheForTile st tile key d = .ok out ∧
      TileCacheInv out.1 := by
  obtain ⟨hn1, hn2, hdisj, hcnt1, hcnt2, hlive, hzomb⟩ := hInv
  unfold TileCache.unloadCacheForTile
  cases hl : alookup st.cachesLoaded key with
  | none =>
      exact ⟨(st, false), rfl, hn1, hn2, hdisj, hcnt1, hcnt2, hlive, hzomb⟩
  | some cacheRecord =>
      have hmemRec : (key, cacheRecord) ∈ st.cachesLoaded := alookup_mem hl
      have hOk := hlive _ hmemRec
      have hrd : cacheRecord.destroyed = false := hOk.1
      have hrl : cacheRecord.loaded = true := hOk.2.1
      have hrp : cacheRecord.promise.isSome = true := hOk.2.2.1
      by_cases hc : cacheRecord.tiles.contains tile
      case neg =>
          have hrm : cacheRecord.removeTile tile = (cacheRecord, false) := by
            unfold CacheRecord.removeTile
            rw [if_neg (by simp [hrd]), if_neg hc]
          simp only [hrm]
          exact ⟨(st, false), rfl, hn1, hn2, hdisj, hcnt1, hcnt2, hlive, hzomb⟩
      case pos =>
          have hrm : cacheRecord.removeTile tile =
              ({ cacheRecord with tiles := cacheRecord.tiles.erase tile }, true) := by
            unfold CacheRecord.removeTile
            rw [if_neg (by simp [hrd]), if_pos hc]
          simp only [hrm, if_pos rfl, if_true, CacheRecord.getTileCount]
          by_cases hz : (cacheRecord.tiles.erase tile).length = 0
          · rw [if_pos hz]
            by_cases hd : d = true
            · -- destroy the emptied record and drop the live entry
              rw [if_pos hd, destroy_of_loaded
                (r := { cacheRecord with tiles := cacheRecord.tiles.erase tile }) hrl]
              refine ⟨_, rfl, ?_, hn2, ?_, ?_, hcnt2, ?_, hzomb⟩
              · exact hn1.sublist ((aerase_sublist _ _).map Prod.fst)
              · exact fun kr hkr => hdisj kr (mem_aerase hkr)
              · have := length_aerase hl
                simp only
                omega
              · exact fun kr hkr => hlive kr (mem_aerase hkr)
            · -- the emptied record becomes a zombie
              have hzl : alookup st.zombiesLoaded key = none := hdisj _ hmemRec
              rw [if_neg hd]
              refine ⟨_, rfl, ?_, ?_, ?_, ?_, ?_, ?_, ?_⟩
              · exact hn1.sublist ((aerase_sublist _ _).map Prod.fst)
              · rw [aset_absent hzl]
                simp only [List.map_append, List.map_cons, List.map_nil]
                rw [List.nodup_append]
                refine ⟨hn2, List.nodup_singleton _, ?_⟩
                intro a ha hb
                simp only [List.mem_singleton] at hb
                subst hb
                exact (alookup_eq_none_iff.mp hzl) ha
              · intro kr hkr
                have hne := mem_aerase_ne hn1 hkr
                rw [alookup_aset_ne hne]
                exact hdisj kr (mem_aerase hkr)
              · have := length_aerase hl
                simp only
                omega
              · rw [aset_absent hzl]
                simp only [List.length_append, List.length_cons, List.length_nil]
                push_cast
                omega
              · exact fun kr hkr => hlive kr (mem_aerase hkr)
              · intro kr hkr
                rcases mem_aset hkr with h1 | h1
                · subst h1
                  exact ⟨hrd, hrl, hrp⟩
                · exact hzomb kr h1
          · -- still-referenced record: write it back in place
            rw [if_neg hz]
            have hkeys := keys_aset_of_mem
              (v := { cacheRecord with tiles := cacheRecord.tiles.erase tile }) hl
            refine ⟨_, rfl, ?_, hn2, ?_, ?_, hcnt2, ?_, hzomb⟩
            · rw [hkeys]; exact hn1
            · intro kr hkr
              rcases mem_aset hkr with h1 | h1
              · subst h1
                exact hdisj (key, cacheRecord) hmemRec
              · exact hdisj kr h1
            · have hlen : (aset st.cachesLoaded key
                  { cacheRecord with tiles := cacheRecord.tiles.erase tile }).length
                  = st.cachesLoaded.length := by
                have := congrArg List.length hkeys
                simpa using this
              simp only [hlen]
              exact hcnt1
            · intro kr hkr
              rcases mem_aset hkr with h1 | h1
              · subst h1
                refine ⟨hrd, hrl, hrp, ?_⟩
                show 1 ≤ (cacheRecord.tiles.erase tile).length
                omega
              · exact hlive kr h1

theorem alookup_cons_none {a : String} {b : CacheRecord}
    {m : List (String × CacheRecord)} {k : String}
    (h : alookup ((a, b) :: m) k = none) : alookup m k = none := by
  by_cases hk : a = k
  · simp [alookup, hk] at h
  · simpa [alookup, hk] using h

/-- The invariant does not mention `tilesLoaded`. -/
theorem inv_set_tilesLoaded {st : TileCacheState} (l : List Tile)
    (hInv : TileCacheInv st) : TileCacheInv { st with tilesLoaded := l } := by
  obtain ⟨h1, h2, h3, h4, h5, h6, h7⟩ := hInv
  exact ⟨h1, h2, h3, h4, h5, h6, h7⟩

theorem unloadCachesLoop_total (tile : Tile) (d : Bool) (ks : List String)
    (st : TileCacheState) (hInv : TileCacheInv st) :
    ∃ st2, TileCache.unloadCachesLoop tile d st ks = .ok st2 ∧
      TileCacheInv st2 := by
  induction ks generalizing st with
  | nil => exact ⟨st, rfl, hInv⟩
  | cons k rest ih =>
      obtain ⟨⟨stm, b⟩, hok, hinv2⟩ := unloadCacheForTile_total st tile k d hInv
      obtain ⟨st3, hok3, hinv3⟩ := ih stm hinv2
      refine ⟨st3, ?_, hinv3⟩
      unfold TileCache.unloadCachesLoop
      rw [hok]
      exact hok3

theorem unloadTile_total (st : TileCacheState) (tile : Tile) (d : Bool)
    (idx : Option Nat) (hInv : TileCacheInv st) :
    ∃ st2, TileCache.unloadTile st tile d idx = .ok st2 ∧ TileCacheInv st2 := by
  obtain ⟨stm, hok, hinv2⟩ := unloadCachesLoop_total tile d tile.caches st hInv
  unfold TileCache.unloadTile
  rw [hok]
  cases idx with
  | some i =>
      exact ⟨_, rfl, inv_set_tilesLoaded _ hinv2⟩
  | none => exact ⟨stm, rfl, hinv2⟩

theorem destroyAll_total (m : List (String × CacheRecord))
    (h : ∀ kr ∈ m, recZombieOk kr.2) : TileCache.destroyAll m = .ok () := by
  induction m with
  | nil => rfl
  | cons kv rest ih =>
      obtain ⟨k, r⟩ := kv
      unfold TileCache.destroyAll
      rw [destroy_of_loaded (h (k, r) (List.mem_cons_self _ _)).2.1]
      exact ih fun kr hkr => h kr (List.mem_cons_of_mem _ hkr)

theorem evictionPass_total (st : TileCacheState) (cutoff : Nat)
    (hInv : TileCacheInv st) :
    ∃ p, TileCache.evictionPass st cutoff = .ok p ∧ TileCacheInv p.1 := by
  unfold TileCache.evictionPass
  by_cases hover :
      st.cachesLoadedCount + st.zombiesLoadedCount > (st.maxCacheItemCount : Int)
  case neg =>
      rw [if_neg hover]
      exact ⟨(st, none), rfl, hInv⟩
  case pos =>
      rw [if_pos hover]
      by_cases hzc : st.zombiesLoadedCount > 0
      case pos =>
          rw [if_pos hzc]
          obtain ⟨hn1, hn2, hdisj, hcnt1, hcnt2, hlive, hzomb⟩ := hInv
          cases hzl : st.zombiesLoaded with
          | nil =>
              rw [hzl] at hcnt2
              simp at hcnt2
              omega
          | cons head rest =>
              obtain ⟨zk, zrec⟩ := head
              have hmem : (zk, zrec) ∈ st.zombiesLoaded := by
                rw [hzl]; exact List.mem_cons_self _ _
              have hzOk := hzomb (zk, zrec) hmem
              simp only []
              rw [destroy_of_loaded hzOk.2.1]
              have haer : aerase ((zk, zrec) :: rest) zk = rest := by
                simp [aerase]
              rw [haer]
              refine ⟨_, rfl, hn1, ?_, ?_, hcnt1, ?_, hlive, ?_⟩
              · rw [hzl] at hn2
                simpa using hn2.of_cons
              · intro kr hkr
                have := hdisj kr hkr
                rw [hzl] at this
                exact alookup_cons_none this
              · rw [hzl] at hcnt2
                simp only [List.length_cons] at hcnt2
                simp only
                omega
              · intro kr hkr
                exact hzomb kr (by rw [hzl]; exact List.mem_cons_of_mem _ hkr)
      case neg =>
          rw [if_neg hzc]
          cases hfw : TileCache.findWorst st.tilesLoaded cutoff with
          | none => exact ⟨(st, none), rfl, hInv⟩
          | some wp =>
              obtain ⟨worstTile, wi⟩ := wp
              obtain ⟨st2, hok2, hinv2⟩ := unloadTile_total st worstTile true none hInv
              simp only []
              rw [hok2]
              exact ⟨(st2, some wi), rfl, hinv2⟩

theorem clearLoop_total (ti : TiledImage) (ov : Bool) (i : Nat)
    (st : TileCacheState) (hInv : TileCacheInv st) :
    ∃ st2, TileCache.clearLoop ti ov st i = .ok st2 ∧ TileCacheInv st2 := by
  induction i generalizing st with
  | zero => exact ⟨st, rfl, hInv⟩
  | succ i ih =>
      unfold TileCache.clearLoop
      cases hti : st.tilesLoaded[i]? with
      | none => exact ih st hInv
      | some tile =>
          simp only []
          by_cases him : tile.tiledImage = ti
          · rw [if_pos him]
            by_cases hld : tile.loaded = true
            · rw [if_neg (by simp [hld])]
              obtain ⟨st2, hok2, hinv2⟩ :=
                unloadTile_total st tile (!ti.zombieCache || ov) (some i) hInv
              rw [hok2]
              exact ih st2 hinv2
            · rw [if_pos (by simp [Bool.not_eq_true] at hld; simp [hld])]
              exact ih _ (inv_set_tilesLoaded _ hInv)
          · rw [if_neg him]
            exact ih st hInv

theorem clearTilesFor_total (st : TileCacheState) (ti : TiledImage)
    (hInv : TileCacheInv st) :
    ∃ st2, TileCache.clearTilesFor st ti = .ok st2 ∧ TileCacheInv st2 := by
  unfold TileCache.clearTilesFor
  by_cases hcond : ti.zombieCache = true ∧
      st.cachesLoadedCount + st.zombiesLoadedCount > (st.maxCacheItemCount : Int) ∧
      st.zombiesLoadedCount > 0
  · rw [if_pos hcond]
    obtain ⟨hn1, hn2, hdisj, hcnt1, hcnt2, hlive, hzomb⟩ := hInv
    rw [destroyAll_total st.zombiesLoaded hzomb]
    have hInv2 : TileCacheInv
        { st with zombiesLoaded := [], zombiesLoadedCount := 0 } := by
      refine ⟨hn1, by simp, ?_, hcnt1, by simp, hlive, by simp⟩
      intro kr _
      simp [alookup]
    exact clearLoop_total ti _ _ _ hInv2
  · rw [if_neg hcond]
    exact clearLoop_total ti _ _ _ hInv

theorem inv_insertion {st : TileCacheState} (t : Tile) (n : Nat)
    (w : Option Nat) (hInv : TileCacheInv st) :
    TileCacheInv (TileCache.insertionBookkeeping st t n w) := by
  simp only [TileCache.insertionBookkeeping]
  split
  · exact inv_set_tilesLoaded _ hInv
  · split
    · exact inv_set_tilesLoaded _ hInv
    · exact hInv

theorem inv_aset_live {st : TileCacheState} {k : String} {rec recNew : CacheRecord}
    (hl : alookup st.cachesLoaded k = some rec) (hInv : TileCacheInv st)
    (hOk : recLiveOk recNew) :
    TileCacheInv { st with cachesLoaded := aset st.cachesLoaded k recNew } := by
  obtain ⟨hn1, hn2, hdisj, hcnt1, hcnt2, hlive, hzomb⟩ := hInv
  have hkeys := keys_aset_of_mem (v := recNew) hl
  refine ⟨?_, hn2, ?_, ?_, hcnt2, ?_, hzomb⟩
  · rw [hkeys]; exact hn1
  · intro kr hkr
    rcases mem_aset hkr with h1 | h1
    · subst h1
      exact hdisj (k, rec) (alookup_mem hl)
    · exact hdisj kr h1
  · have hlen := congrArg List.length hkeys
    simp only [List.length_map] at hlen
    simp only [hlen]
    exact hcnt1
  · intro kr hkr
    rcases mem_aset hkr with h1 | h1
    · subst h1
      exact hOk
    · exact hlive kr h1

theorem inv_aset_zombie {st : TileCacheState} {k : String}
    {zrec recNew : CacheRecord}
    (hzl : alookup st.zombiesLoaded k = some zrec) (hInv : TileCacheInv st)
    (hOk : recZombieOk recNew) :
    TileCacheInv { st with zombiesLoaded := aset st.zombiesLoaded k recNew } := by
  obtain ⟨hn1, hn2, hdisj, hcnt1, hcnt2, hlive, hzomb⟩ := hInv
  have hkeys := keys_aset_of_mem (v := recNew) hzl
  refine ⟨hn1, ?_, ?_, hcnt1, ?_, hlive, ?_⟩
  · rw [hkeys]; exact hn2
  · intro kr hkr
    have hne : kr.1 ≠ k := by
      intro he
      have h0 := hdisj kr hkr
      rw [he, hzl] at h0
      exact Option.noConfusion h0
    rw [alookup_aset_ne hne]
    exact hdisj kr hkr
  · have hlen := congrArg List.length hkeys
    simp only [List.length_map] at hlen
    simp only [hlen]
    exact hcnt2
  · intro kr hkr
    rcases mem_aset hkr with h1 | h1
    · subst h1
      exact hOk
    · exact hzomb kr h1

theorem inv_insert_fresh {st : TileCacheState} {k : String} {recNew : CacheRecord}
    (hl : alookup st.cachesLoaded k = none)
    (hzl : alookup st.zombiesLoaded k = none) (hInv : TileCacheInv st)
    (hOk : recLiveOk recNew) :
    TileCacheInv
      { st with cachesLoaded := aset st.cachesLoaded k recNew,
                cachesLoadedCount := st.cachesLoadedCount + 1 } := by
  obtain ⟨hn1, hn2, hdisj, hcnt1, hcnt2, hlive, hzomb⟩ := hInv
  have hko : k ∉ st.cachesLoaded.map Prod.fst := alookup_eq_none_iff.mp hl
  have habs := aset_absent (v := recNew) hl
  refine ⟨?_, hn2, ?_, ?_, hcnt2, ?_, hzomb⟩
  · rw [habs]
    simp only [List.map_append, List.map_cons, List.map_nil]
    rw [List.nodup_append]
    refine ⟨hn1, List.nodup_singleton _, ?_⟩
    intro a ha hb
    simp only [List.mem_singleton] at hb
    subst hb
    exact hko ha
  · intro kr hkr
    rcases mem_aset hkr with h1 | h1
    · subst h1
      exact hzl
    · exact hdisj kr h1
  · rw [habs]
    simp only [List.length_append, List.length_cons, List.length_nil]
    push_cast
    omega
  · intro kr hkr
    rcases mem_aset hkr with h1 | h1
    · subst h1
      exact hOk
    · exact hlive kr h1

theorem cacheTile_total (reg : Registry) (st : TileCacheState)
    (opts : TileCache.CacheTileOptions) (hInv : TileCacheInv st) :
    ∃ out, TileCache.cacheTile reg st opts = .ok out ∧
      TileCacheInv out.state := by
  unfold TileCache.cacheTile
  simp only []
  set cacheKey := TileCache.jsOrStr opts.cacheKey opts.tile.cacheKey with hck
  unfold TileCache.cacheTileLookup
  cases hl : alookup st.cachesLoaded cacheKey with
  | some rec =>
      simp only [TileCache.writeRecord]
      have hro : recLiveOk rec := hInv.2.2.2.2.2.1 (cacheKey, rec) (alookup_mem hl)
      have hInv2 := inv_aset_live hl hInv
        (addTile_recLiveOk opts.tile opts.data
          (TileCache.resolvedDataType reg opts.dataType opts.data) hro)
      obtain ⟨⟨st3, wi⟩, hok3, hinv3⟩ :=
        evictionPass_total _ (opts.cutoff.getD 0) hInv2
      rw [hok3]
      exact ⟨_, rfl, inv_insertion opts.tile _ wi hinv3⟩
  | none =>
      cases hzl : alookup st.zombiesLoaded cacheKey with
      | some zrec =>
          have hzOk : recZombieOk zrec :=
            hInv.2.2.2.2.2.2 (cacheKey, zrec) (alookup_mem hzl)
          simp only []
          rw [if_neg (show ¬(zrec.destroyed = true) by simp [hzOk.1])]
          simp only [TileCache.writeRecord]
          have hInv2 := inv_aset_zombie hzl hInv
            (addTile_recZombieOk opts.tile opts.data
              (TileCache.resolvedDataType reg opts.dataType opts.data) hzOk)
          obtain ⟨⟨st3, wi⟩, hok3, hinv3⟩ :=
            evictionPass_total _ (opts.cutoff.getD 0) hInv2
          rw [hok3]
          exact ⟨_, rfl, inv_insertion opts.tile _ wi hinv3⟩
      | none =>
          simp only [TileCache.writeRecord, aset_aset]
          have hInv2 := inv_insert_fresh hl hzl hInv
            (addTile_fresh_recLiveOk opts.tile
              (if opts.data = .undef then opts.image else opts.data)
              (TileCache.resolvedDataType reg opts.dataType
                (if opts.data = .undef then opts.image else opts.data)))
          obtain ⟨⟨st3, wi⟩, hok3, hinv3⟩ :=
            evictionPass_total _ (opts.cutoff.getD 0) hInv2
          rw [hok3]
          exact ⟨_, rfl, inv_insertion opts.tile _ wi hinv3⟩

/-- Every public operation preserves the invariant. -/
theorem step_inv {reg : Registry} {st st2 : TileCacheState}
    (hInv : TileCacheInv st) (h : Step reg st st2) : TileCacheInv st2 := by
  cases h with
  | cacheTileStep opts out hok =>
      obtain ⟨out2, hok2, hinv2⟩ := cacheTile_total reg st opts hInv
      rw [hok] at hok2
      cases hok2
      exact hinv2
  | unloadCacheForTileStep tile key d out hok =>
      obtain ⟨out2, hok2, hinv2⟩ := unloadCacheForTile_total st tile key d hInv
      rw [hok] at hok2
      cases hok2
      exact hinv2
  | unloadTileStep tile d idx st3 hok =>
      obtain ⟨st4, hok2, hinv2⟩ := unloadTile_total st tile d idx hInv
      rw [hok] at hok2
      cases hok2
      exact hinv2
  | clearTilesForStep ti st3 hok =>
      obtain ⟨st4, hok2, hinv2⟩ := clearTilesFor_total st ti hInv
      rw [hok] at hok2
      cases hok2
      exact hinv2

/-- The invariant holds in every reachable state. -/
theorem reachable_inv {reg : Registry} {st : TileCacheState}
    (h : Reachable reg st) : TileCacheInv st := by
  induction h with
  | init cap => exact initialState_inv cap
  | step _ hstep ih => exact step_inv ih hstep

/-! ### Analysis of the eviction victim scan -/

/-- A tile the victim scan may select: strictly above the cutoff level and not
being drawn. -/
def admissibleTile (cutoff : Nat) (t : Tile) : Prop :=
  cutoff < t.level ∧ t.beingDrawn = false

instance (cutoff : Nat) (t : Tile) : Decidable (admissibleTile cutoff t) := by
  unfold admissibleTile; infer_instance

/-- The strict preference of the scan: `prevTime < worstTime ||
(prevTime === worstTime && prevLevel > worstLevel)`. -/
def keyLt (t w : Tile) : Prop :=
  t.lastTouchTime < w.lastTouchTime ∨
    (t.lastTouchTime = w.lastTouchTime ∧ w.level < t.level)

/-- The matching non-strict order on `(lastTouchTime, -level)`. -/
def keyLe (w t : Tile) : Prop :=
  w.lastTouchTime < t.lastTouchTime ∨
    (w.lastTouchTime = t.lastTouchTime ∧ t.level ≤ w.level)

theorem keyLe_of_not_keyLt {t w : Tile} (h : ¬ keyLt t w) : keyLe w t := by
  unfold keyLt at h
  unfold keyLe
  omega

theorem not_keyLt_of_keyLe {w t : Tile} (h : keyLe w t) : ¬ keyLt t w := by
  unfold keyLe at h
  unfold keyLt
  omega

theorem keyLe_trans {a b c : Tile} (h1 : keyLe a b) (h2 : keyLe b c) :
    keyLe a c := by
  unfold keyLe at h1 h2 ⊢
  omega

theorem keyLe_of_keyLe_of_keyLt {w t a : Tile} (h1 : keyLe w t)
    (h2 : keyLt t a) : keyLe w a := by
  unfold keyLe at h1 ⊢
  unfold keyLt at h2
  omega

theorem keyLe_refl (t : Tile) : keyLe t t := by
  unfold keyLe
  omega

/-- Case-split characterization of one scan step. -/
theorem worstStep_cases (cutoff : Nat) (acc : Option (Tile × Nat))
    (i : Nat) (t : Tile) :
    (¬ admissibleTile cutoff t ∧ TileCache.worstStep cutoff acc (i, t) = acc) ∨
    (admissibleTile cutoff t ∧ acc = none ∧
      TileCache.worstStep cutoff acc (i, t) = some (t, i)) ∨
    (admissibleTile cutoff t ∧ ∃ w wi, acc = some (w, wi) ∧ keyLt t w ∧
      TileCache.worstStep cutoff acc (i, t) = some (t, i)) ∨
    (admissibleTile cutoff t ∧ ∃ w wi, acc = some (w, wi) ∧ ¬ keyLt t w ∧
      TileCache.worstStep cutoff acc (i, t) = acc) := by
  unfold TileCache.worstStep
  simp only []
  by_cases hadm : admissibleTile cutoff t
  · have hskip : ¬ (t.level ≤ cutoff || t.beingDrawn) = true := by
      obtain ⟨h1, h2⟩ := hadm
      simp [h2]
      omega
    rw [if_neg hskip]
    cases acc with
    | none => exact Or.inr (Or.inl ⟨hadm, rfl, rfl⟩)
    | some p =>
        obtain ⟨w, wi⟩ := p
        by_cases hb : keyLt t w
        · refine Or.inr (Or.inr (Or.inl ⟨hadm, w, wi, rfl, hb, ?_⟩))
          simp only []
          rw [if_pos]
          unfold keyLt at hb
          rcases hb with hb | hb
          · simp [hb]
          · simp [hb.1, hb.2]
        · refine Or.inr (Or.inr (Or.inr ⟨hadm, w, wi, rfl, hb, ?_⟩))
          simp only []
          rw [if_neg]
          unfold keyLt at hb
          simp only [Bool.or_eq_true, decide_eq_true_eq, Bool.and_eq_true]
          push_neg at hb ⊢
          exact hb
  · refine Or.inl ⟨hadm, ?_⟩
    unfold admissibleTile at hadm
    rw [if_pos]
    simp only [Bool.or_eq_true, decide_eq_true_eq]
    by_cases h1 : t.beingDrawn = true
    · exact Or.inr h1
    · have h2 : t.beingDrawn = false := by simpa using h1
      have h3 : ¬ cutoff < t.level := fun hcl => hadm ⟨hcl, h2⟩
      exact Or.inl (by omega)

/-- The scan result never becomes `none` once the accumulator is set, and the
final result is at least as preferred as the accumulator. -/
theorem foldl_worstStep_keyLe (cutoff : Nat) (l : List (Nat × Tile)) :
    ∀ acc w wi a ai, l.foldl (TileCache.worstStep cutoff) acc = some (w, wi) →
      acc = some (a, ai) → keyLe w a := by
  induction l with
  | nil =>
      intro acc w wi a ai hf hacc
      rw [hacc] at hf
      simp only [List.foldl_nil] at hf
      cases hf
      exact keyLe_refl _
  | cons p rest ih =>
      obtain ⟨i, t⟩ := p
      intro acc w wi a ai hf hacc
      simp only [List.foldl_cons] at hf
      rcases worstStep_cases cutoff acc i t with
        ⟨_, hstep⟩ | ⟨_, hnone, hstep⟩ | ⟨_, w0, wi0, hsome, hlt, hstep⟩ |
        ⟨_, w0, wi0, hsome, hnlt, hstep⟩
      · rw [hstep] at hf
        exact ih acc w wi a ai hf hacc
      · rw [hnone] at hacc
        exact Option.noConfusion hacc
      · rw [hstep] at hf
        have h1 := ih _ w wi t i hf rfl
        rw [hsome] at hacc
        cases hacc
        exact keyLe_of_keyLe_of_keyLt h1 hlt
      · rw [hstep] at hf
        exact ih acc w wi a ai hf hacc

/-- Every admissible tile in the scanned list is not preferred over the result. -/
theorem foldl_worstStep_minimal (cutoff : Nat) (l : List (Nat × Tile)) :
    ∀ acc w wi, l.foldl (TileCache.worstStep cutoff) acc = some (w, wi) →
      ∀ p ∈ l, admissibleTile cutoff p.2 → ¬ keyLt p.2 w := by
  induction l with
  | nil =>
      intro acc w wi _ p hp
      simp at hp
  | cons q rest ih =>
      obtain ⟨i, t⟩ := q
      intro acc w wi hf p hp hadm
      simp only [List.foldl_cons] at hf
      rcases List.mem_cons.mp hp with hp1 | hp1
      · -- the head element
        subst hp1
        simp only at hadm
        rcases worstStep_cases cutoff acc i t with
          ⟨hnadm, _⟩ | ⟨_, _, hstep⟩ | ⟨_, w0, wi0, _, _, hstep⟩ |
          ⟨_, w0, wi0, hsome, hnlt, hstep⟩
        · exact absurd hadm hnadm
        · rw [hstep] at hf
          exact not_keyLt_of_keyLe (foldl_worstStep_keyLe cutoff rest _ w wi t i hf rfl)
        · rw [hstep] at hf
          exact not_keyLt_of_keyLe (foldl_worstStep_keyLe cutoff rest _ w wi t i hf rfl)
        · rw [hstep, hsome] at hf
          have h1 := foldl_worstStep_keyLe cutoff rest _ w wi w0 wi0 hf rfl
          exact not_keyLt_of_keyLe (keyLe_trans h1 (keyLe_of_not_keyLt hnlt))
      · -- an element deeper in the list
        rcases worstStep_cases cutoff acc i t with
          ⟨_, hstep⟩ | ⟨_, _, hstep⟩ | ⟨_, w0, wi0, _, _, hstep⟩ |
          ⟨_, w0, wi0, _, _, hstep⟩ <;>
          [skip; skip; skip; skip] <;>
          (rw [hstep] at hf; exact ih _ w wi hf p hp1 hadm)

/-- The scan result, when set, names an admissible list entry (unless it came
from the accumulator). -/
theorem foldl_worstStep_origin (cutoff : Nat) (l : List (Nat × Tile)) :
    ∀ acc w wi, l.foldl (TileCache.worstStep cutoff) acc = some (w, wi) →
      acc = some (w, wi) ∨ ((wi, w) ∈ l ∧ admissibleTile cutoff w) := by
  induction l with
  | nil =>
      intro acc w wi hf
      simp only [List.foldl_nil] at hf
      exact Or.inl hf
  | cons q rest ih =>
      obtain ⟨i, t⟩ := q
      intro acc w wi hf
      simp only [List.foldl_cons] at hf
      rcases worstStep_cases cutoff acc i t with
        ⟨_, hstep⟩ | ⟨hadm, _, hstep⟩ | ⟨hadm, w0, wi0, _, _, hstep⟩ |
        ⟨_, w0, wi0, _, _, hstep⟩
      · rw [hstep] at hf
        rcases ih acc w wi hf with h1 | h1
        · exact Or.inl h1
        · exact Or.inr ⟨List.mem_cons_of_mem _ h1.1, h1.2⟩
      · rw [hstep] at hf
        rcases ih _ w wi hf with h1 | h1
        · cases h1
          exact Or.inr ⟨List.mem_cons_self _ _, hadm⟩
        · exact Or.inr ⟨List.mem_cons_of_mem _ h1.1, h1.2⟩
      · rw [hstep] at hf
        rcases ih _ w wi hf with h1 | h1
        · cases h1
          exact Or.inr ⟨List.mem_cons_self _ _, hadm⟩
        · exact Or.inr ⟨List.mem_cons_of_mem _ h1.1, h1.2⟩
      · rw [hstep] at hf
        rcases ih acc w wi hf with h1 | h1
        · exact Or.inl h1
        · exact Or.inr ⟨List.mem_cons_of_mem _ h1.1, h1.2⟩

/-- The scan `findWorst` returns an admissible member of the list that minimizes
`(lastTouchTime, -level)` lexicographically over all admissible members. -/
theorem findWorst_spec (tilesLoaded : List Tile) (cutoff : Nat) (w : Tile)
    (wi : Nat) (h : TileCache.findWorst tilesLoaded cutoff = some (w, wi)) :
    w ∈ tilesLoaded ∧ admissibleTile cutoff w ∧
      ∀ t ∈ tilesLoaded, admissibleTile cutoff t → ¬ keyLt t w := by
  unfold TileCache.findWorst at h
  refine ⟨?_, ?_, ?_⟩
  · rcases foldl_worstStep_origin cutoff _ none w wi h with h1 | h1
    · exact Option.noConfusion h1
    · have h2 : (wi, w) ∈ tilesLoaded.enum := List.mem_reverse.mp h1.1
      exact List.getElem?_mem (List.mk_mem_enum_iff_getElem?.mp h2)
  · rcases foldl_worstStep_origin cutoff _ none w wi h with h1 | h1
    · exact Option.noConfusion h1
    · exact h1.2
  · intro t ht hadm
    obtain ⟨i, hi⟩ := List.getElem?_of_mem ht
    have h2 : (i, t) ∈ tilesLoaded.enum := List.mk_mem_enum_iff_getElem?.mpr hi
    exact foldl_worstStep_minimal cutoff _ none w wi h (i, t)
      (List.mem_reverse.mpr h2) hadm


/-! ### Concrete test fixtures -/

/-- A registry with no conversion routes (every `getConversionPath` request
returns the falsy no-route marker). -/
def regNone : Registry :=
  { getConversionPath := fun _ _ => none, guessType := fun _ => "unknown" }

/-- A registry whose `A → B` path is a single identity edge. -/
def regId : Registry :=
  { getConversionPath := fun f t =>
      if f == "A" && t == "B" then some [⟨"A", "B", fun x => x⟩] else none,
    guessType := fun _ => "g" }

/-- A registry whose `A → B` path is a single edge whose transform resolves to
a falsy value. -/
def regFail : Registry :=
  { getConversionPath := fun f t =>
      if f == "A" && t == "B" then some [⟨"A", "B", fun _ => .null⟩] else none,
    guessType := fun _ => "g" }

/-- A registry that reports an empty edge array (a truthy JS value!) for every
request. -/
def regEmpty : Registry :=
  { getConversionPath := fun _ _ => some [], guessType := fun _ => "g" }

/-- A loaded record holding payload `"D1"` in format `"A"` with no tiles. -/
def recA : CacheRecord :=
  { tiles := [], data := .strV "D1", type := some "A", loaded := true,
    promise := some (.strV "D1"), destroyed := false }

/-- The tiled image used by the concrete tiles. -/
def imgA : TiledImage := { id := 0, zombieCache := true }

def tileA1 : Tile :=
  { id := 1, cacheKey := "A", level := 1, lastTouchTime := 0,
    beingDrawn := false, loaded := true, tiledImage := imgA,
    caches := ["A"], cacheSize := 0 }

def tileA3 : Tile :=
  { id := 3, cacheKey := "A", level := 1, lastTouchTime := 5,
    beingDrawn := false, loaded := true, tiledImage := imgA,
    caches := ["A"], cacheSize := 0 }

def optsA1 : TileCache.CacheTileOptions :=
  { tile := tileA1, cacheKey := none, data := .strV "D1", image := .undef,
    dataType := some "raw", cutoff := none }

def optsA3 : TileCache.CacheTileOptions :=
  { tile := tileA3, cacheKey := none, data := .strV "D3", image := .undef,
    dataType := some "raw", cutoff := none }

/-- Fallback output used to totalize the concrete runs (never reached). -/
def fallbackOut : TileCache.CacheTileOut :=
  { state := initialState 0, record := CacheRecord.fresh, assertFailures := [] }

/-- Run of `cacheTile(t1, A, D1, raw)` on an empty capacity-3 cache. -/
def outA1 : TileCache.CacheTileOut :=
  match TileCache.cacheTile regNone (initialState 3) optsA1 with
  | .ok o => o
  | .error _ => fallbackOut

/-- Then `unloadTile(t1, destroy=false)`: the record becomes a zombie. -/
def stZombie : TileCacheState :=
  match TileCache.unloadTile outA1.state tileA1 false none with
  | .ok s => s
  | .error _ => initialState 0

/-- Then `cacheTile(t3, A, D3, raw)` on the zombie state. -/
def outA3 : TileCache.CacheTileOut :=
  match TileCache.cacheTile regNone stZombie optsA3 with
  | .ok o => o
  | .error _ => fallbackOut

/-- The record stored under key `"A"` after the first `cacheTile`. -/
def recOutA1 : CacheRecord :=
  (alookup outA1.state.cachesLoaded "A").getD CacheRecord.fresh

/-- The record stored in the zombie tier under `"A"` after the third call. -/
def recOutA3 : CacheRecord :=
  (alookup outA3.state.zombiesLoaded "A").getD CacheRecord.fresh

/-! ### C3 -/

/-- C3: evaluation of `_convert` at the failing input.  With a one-edge path
`A → B` whose transform resolves to a falsy value, the source's recovery
branch assigns the *format string* `from` to `this._data` (`_this._data =
from`) instead of the original payload, while setting `_type = from`,
`loaded = true` and resolving the returned eventual with the original data.
The record's payload afterwards is the string `"A"`, not the original `"D1"`
that entered the conversion — the recovery comment ("try to recover using
original data") and the spec both call for the original payload. -/
theorem c3_thm_convert_falsy_sets_payload_to_format_string :
    (recA.convert regFail "A" "B").1.data = .strV "A" ∧
    (recA.convert regFail "A" "B").1.data ≠ recA.data ∧
    (recA.convert regFail "A" "B").1.type = some "A" ∧
    (recA.convert regFail "A" "B").1.loaded = true ∧
    (recA.convert regFail "A" "B").1.promise = some (.strV "D1") := by
  refine ⟨rfl, by decide, rfl, rfl, rfl⟩

/-! ### C6 -/

/-- C6: counterexample — when `getConversionPath` yields an *empty edge
sequence* (a truthy JS array), `_convert` does not leave the record unchanged:
it runs the zero-step chain, which re-installs the original payload but sets
the record's format to the target `to` and replaces the ready handle, so
`format` changes from `"A"` to `"B"`. -/
theorem c6_cex_empty_path_changes_format :
    (recA.convert regEmpty "A" "B").1.type = some "B" ∧
    recA.type = some "A" ∧
    (recA.convert regEmpty "A" "B").1 ≠ recA := by
  refine ⟨rfl, rfl, by decide⟩

/-- C6 (amended): when `getConversionPath` yields the falsy no-route marker
(`undefined`/`null`, modelled as `none`) — not an empty array — `_convert`
returns with the record entirely unchanged (payload, format, loaded flag and
ready handle all keep their prior values) and performs no transform or destroy
call. -/
theorem c6_thm_no_route_noop (reg : Registry) (r : CacheRecord)
    (from_ to_ : String) (h : reg.getConversionPath from_ to_ = none) :
    r.convert reg from_ to_ = (r, [.getPath from_ to_]) := by
  unfold CacheRecord.convert
  rw [h]

/-- C6 witness: the no-route registry leaves the concrete record untouched. -/
theorem c6_witness_no_route :
    recA.convert regNone "A" "B" = (recA, [.getPath "A" "B"]) :=
  c6_thm_no_route_noop regNone recA "A" "B" rfl

/-! ### C7 -/

/-- C7: on a loaded, non-destroyed record, `addTile` with a tile not already
attached ignores the incoming `(data, type)` arguments, appends the tile, and
increases the tile count by one; payload and format are unchanged. -/
theorem c7_thm_addTile_ignores_incoming_data (r : CacheRecord) (t : Tile)
    (d : JSValue) (ty : String) (h1 : r.destroyed = false)
    (h2 : r.loaded = true) (h3 : t ∉ r.tiles) :
    (r.addTile t d ty).data = r.data ∧
    (r.addTile t d ty).type = r.type ∧
    (r.addTile t d ty).loaded = r.loaded ∧
    (r.addTile t d ty).promise = r.promise ∧
    (r.addTile t d ty).tiles = r.tiles ++ [t] ∧
    (r.addTile t d ty).tiles.length = r.tiles.length + 1 := by
  rw [addTile_loaded_eq r t d ty h1 h2]
  simp [h3]

/-- C7 witness: attaching a second tile with different data leaves `D1`. -/
theorem c7_witness_addTile :
    (recA.addTile tileA3 (.strV "D2") "raw").data = recA.data ∧
    (recA.addTile tileA3 (.strV "D2") "raw").tiles.length
      = recA.tiles.length + 1 := by
  have h := c7_thm_addTile_ignores_incoming_data recA tileA3 (.strV "D2") "raw"
    rfl rfl (by decide)
  exact ⟨h.1, h.2.2.2.2.2⟩

/-! ### C8 -/

/-- C8: counterexample — when the target type is unreachable, the first
`transformTo("B")` completes (it returns the record's existing promise, the
conversion having been a logged no-op), but a second `transformTo("B")`
consults the registry again: its call trace contains another
`getConversionPath` request, refuting "invoking no additional registry
conversion (getConversionPath/transform) calls". -/
theorem c8_cex_unreachable_type_requeries_registry :
    (recA.transformTo regNone "B").2.1
      = .fromPromise (some (.strV "D1")) ∧
    ((recA.transformTo regNone "B").1.transformTo regNone "B").2.2
      = [.getPath "A" "B"] := by
  refine ⟨rfl, rfl⟩

/-- C8 (amended): once a `transformTo(T)` has completed *successfully* — the
record is loaded with format `T` — a second `transformTo(T)` returns the same
record and the same promise and makes no registry call at all. -/
theorem c8_thm_transformTo_idempotent_after_success (reg : Registry)
    (r r1 : CacheRecord) (T : String) (res1 : CacheRecord.EventualResult)
    (calls1 : List RegCall)
    (hfirst : r.transformTo reg T = (r1, res1, calls1))
    (hl : r1.loaded = true) (ht : r1.type = some T) :
    r1.transformTo reg T = (r1, .fromPromise r1.promise, []) ∧
    res1 = .fromPromise r1.promise := by
  constructor
  · unfold CacheRecord.transformTo
    split
    · next hcond => exact absurd hcond (by simp [hl, ht])
    · rfl
  · unfold CacheRecord.transformTo at hfirst
    split at hfirst
    · split at hfirst
      · next hnl =>
          simp only [Prod.mk.injEq] at hfirst
          obtain ⟨h1, _, _⟩ := hfirst
          subst h1
          simp [hl] at hnl
      · rcases hcv : r.convert reg (r.type.getD "") T with ⟨r2, calls⟩
        rw [hcv] at hfirst
        simp only [Prod.mk.injEq] at hfirst
        obtain ⟨h1, h2, _⟩ := hfirst
        subst h1
        exact h2.symm
    · simp only [Prod.mk.injEq] at hfirst
      obtain ⟨h1, h2, _⟩ := hfirst
      subst h1
      exact h2.symm

/-! ### C9 -/

/-- C9: evaluation of `destroy()` at the failing input — a freshly constructed
record (never populated: `loaded = false`, `_promise = null`).  The source's
`!loaded` branch runs `this._promise.then(...)` on `null`, so the call throws a
`TypeError` across the caller boundary, contradicting "no public operation of
CacheRecord or TileCache ever throws an error... including destroy() on a
record that has never been populated, where ready is absent". -/
theorem c9_thm_destroy_fresh_record_throws :
    CacheRecord.fresh.loaded = false ∧
    CacheRecord.fresh.promise = none ∧
    CacheRecord.destroy CacheRecord.fresh
      = .error "TypeError: this._promise is null" := by
  refine ⟨rfl, rfl, rfl⟩

/-- C8 witness: a successful conversion to `"B"` followed by a second
`transformTo("B")` that returns the same promise with no registry calls. -/
theorem c8_witness_transformTo :
    (recA.transformTo regId "B").1.transformTo regId "B"
      = ((recA.transformTo regId "B").1,
         .fromPromise (recA.transformTo regId "B").1.promise, []) :=
  (c8_thm_transformTo_idempotent_after_success regId recA
    (recA.transformTo regId "B").1 "B" (recA.transformTo regId "B").2.1
    (recA.transformTo regId "B").2.2 rfl (by decide) (by decide)).1

/-! ### Helper facts about the tail phases of `cacheTile` -/

theorem insertionBookkeeping_maps (st : TileCacheState) (t : Tile) (n : Nat)
    (w : Option Nat) :
    (TileCache.insertionBookkeeping st t n w).cachesLoaded = st.cachesLoaded ∧
    (TileCache.insertionBookkeeping st t n w).zombiesLoaded = st.zombiesLoaded ∧
    (TileCache.insertionBookkeeping st t n w).cachesLoadedCount
      = st.cachesLoadedCount ∧
    (TileCache.insertionBookkeeping st t n w).zombiesLoadedCount
      = st.zombiesLoadedCount := by
  simp only [TileCache.insertionBookkeeping]
  split
  · exact ⟨rfl, rfl, rfl, rfl⟩
  · split
    · exact ⟨rfl, rfl, rfl, rfl⟩
    · exact ⟨rfl, rfl, rfl, rfl⟩

theorem insertionBookkeeping_none_tiles (st : TileCacheState) (t : Tile)
    (n : Nat) (hn : n = st.tilesLoaded.length) :
    (TileCache.insertionBookkeeping st t n none).tilesLoaded = st.tilesLoaded ∨
    (TileCache.insertionBookkeeping st t n none).tilesLoaded
      = st.tilesLoaded ++ [t] := by
  subst hn
  simp only [TileCache.insertionBookkeeping]
  split
  · right
    simp [TileCache.setOrAppend]
  · left
    rfl

theorem aset_ne_nil (m : List (String × CacheRecord)) (k : String)
    (v : CacheRecord) : aset m k v ≠ [] := by
  intro h
  have hs : alookup (aset m k v) k = some v := alookup_aset_self
  rw [h] at hs
  simp [alookup] at hs

theorem length_aset_of_mem {m : List (String × CacheRecord)} {k : String}
    {v w : CacheRecord} (h : alookup m k = some w) :
    (aset m k v).length = m.length := by
  have h2 := congrArg List.length (keys_aset_of_mem (v := v) h)
  simpa using h2

theorem evictionPass_zombie (st : TileCacheState) (cutoff : Nat)
    (zk : String) (zrec : CacheRecord) (rest : List (String × CacheRecord))
    (hover : st.cachesLoadedCount + st.zombiesLoadedCount
        > (st.maxCacheItemCount : Int))
    (hzc : st.zombiesLoadedCount > 0)
    (hzly : st.zombiesLoaded = (zk, zrec) :: rest)
    (hzld : zrec.loaded = true) :
    TileCache.evictionPass st cutoff = .ok
      ({ st with zombiesLoaded := rest,
                 zombiesLoadedCount := st.zombiesLoadedCount - 1 }, none) := by
  unfold TileCache.evictionPass
  rw [if_pos hover, if_pos hzc, hzly]
  simp only []
  rw [destroy_of_loaded hzld]
  simp only [aerase, eq_self_iff_true, if_true]

/-! ### C1 -/

/-- C2: counterexample — the reachable state after `cacheTile(t1,A,D1)`,
`unloadTile(t1, destroy=false)`, `cacheTile(t3,A,D3)` stores a record in the
zombie map whose tile count is 1, refuting "each record stored in the zombies
map has tile count exactly 0". -/
theorem c2_cex_zombie_with_tile :
    Reachable regNone outA3.state ∧
    alookup outA3.state.zombiesLoaded "A" = some recOutA3 ∧
    recOutA3.tiles.length = 1 ∧
    recOutA3.destroyed = false := by
  refine ⟨?_, by decide, by decide, by decide⟩
  have h0 : Reachable regNone (initialState 3) := Reachable.init 3
  have h1 : Reachable regNone outA1.state :=
    h0.step (Step.cacheTileStep (initialState 3) optsA1 outA1 rfl)
  have h2 : Reachable regNone stZombie :=
    h1.step (Step.unloadTileStep outA1.state tileA1 false none stZombie rfl)
  exact h2.step (Step.cacheTileStep stZombie optsA3 outA3 rfl)

/-- C2 (amended): in every state reachable by sequences of `cacheTile`,
`unloadCacheForTile`, `unloadTile` and `clearTilesFor`, each record in the
live map has tile count at least 1 and is not destroyed, and each record in
the zombie map is not destroyed.  (Zombie records have tile count 0 when they
enter the zombie map, but a later `cacheTile` on the same key attaches tiles
to the record while it stays in the zombie map, so no tile-count bound holds
for zombies.) -/
theorem c2_thm_invariant (reg : Registry) (st : TileCacheState)
    (h : Reachable reg st) :
    (∀ kr ∈ st.cachesLoaded, 1 ≤ kr.2.tiles.length ∧ kr.2.destroyed = false) ∧
    (∀ kr ∈ st.zombiesLoaded, kr.2.destroyed = false) := by
  obtain ⟨_, _, _, _, _, hlive, hzomb⟩ := reachable_inv h
  exact ⟨fun kr hkr => ⟨(hlive kr hkr).2.2.2, (hlive kr hkr).1⟩,
    fun kr hkr => (hzomb kr hkr).1⟩

/-- C2 witness: the invariant evaluated at the concrete reachable state after
one `cacheTile`. -/
theorem c2_witness_reachable_state :
    1 ≤ recOutA1.tiles.length ∧ recOutA1.destroyed = false := by
  have h0 : Reachable regNone (initialState 3) := Reachable.init 3
  have h1 : Reachable regNone outA1.state :=
    h0.step (Step.cacheTileStep (initialState 3) optsA1 outA1 rfl)
  exact (c2_thm_invariant regNone outA1.state h1).1 ("A", recOutA1) (by decide)

/-! ### C4 -/

def tS1 : Tile :=
  { id := 51, cacheKey := "k1", level := 2, lastTouchTime := 10,
    beingDrawn := false, loaded := true, tiledImage := imgA,
    caches := ["k1"], cacheSize := 1 }

def tS2 : Tile :=
  { id := 52, cacheKey := "k2", level := 5, lastTouchTime := 10,
    beingDrawn := false, loaded := true, tiledImage := imgA,
    caches := ["k2"], cacheSize := 1 }

def tS3 : Tile :=
  { id := 53, cacheKey := "k3", level := 2, lastTouchTime := 20,
    beingDrawn := false, loaded := true, tiledImage := imgA,
    caches := ["k3"], cacheSize := 1 }

def tS4 : Tile :=
  { id := 54, cacheKey := "k4", level := 3, lastTouchTime := 30,
    beingDrawn := false, loaded := true, tiledImage := imgA,
    caches := [], cacheSize := 0 }

/-- A live record referenced by exactly one tile. -/
def mkLiveRec (t : Tile) (d : String) : CacheRecord :=
  { tiles := [t], data := .strV d, type := some "raw", loaded := true,
    promise := some (.strV d), destroyed := false }

/-- Three live tiles with `(lastTouchTime, level)` = (10,2), (10,5), (20,2)
filling a capacity-3 cache. -/
def s5State : TileCacheState :=
  { cachesLoaded := [("k1", mkLiveRec tS1 "D1"), ("k2", mkLiveRec tS2 "D2"),
      ("k3", mkLiveRec tS3 "D3")],
    zombiesLoaded := [], cachesLoadedCount := 3, zombiesLoadedCount := 0,
    tilesLoaded := [tS1, tS2, tS3], maxCacheItemCount := 3 }

def optsS4 : TileCache.CacheTileOptions :=
  { tile := tS4, cacheKey := none, data := .strV "D4", image := .undef,
    dataType := some "raw", cutoff := none }

def s4Out : TileCache.CacheTileOut :=
  match TileCache.cacheTile regNone s5State optsS4 with
  | .ok o => o
  | .error _ => fallbackOut

/-- C4: the eviction victim found by the scan is an admissible tile (level
strictly above the cutoff, not being drawn) minimizing `(lastTouchTime,
-level)` lexicographically over all admissible tiles — oldest touch wins, ties
broken towards the higher level; and on the concrete S5 state (three live
tiles (10,2), (10,5), (20,2), cutoff 0) adding a fourth tile evicts (10,5):
the scan picks `tS2`, whose record is destroyed and whose `tilesLoaded` slot
is overwritten by the new tile. -/
theorem c4_thm_eviction_lru_level :
    (∀ (tilesLoaded : List Tile) (cutoff : Nat) (w : Tile) (wi : Nat),
      TileCache.findWorst tilesLoaded cutoff = some (w, wi) →
        w ∈ tilesLoaded ∧ cutoff < w.level ∧ w.beingDrawn = false ∧
        ∀ t ∈ tilesLoaded, cutoff < t.level → t.beingDrawn = false →
          w.lastTouchTime < t.lastTouchTime ∨
            (w.lastTouchTime = t.lastTouchTime ∧ t.level ≤ w.level)) ∧
    (TileCache.findWorst [tS1, tS2, tS3] 0 = some (tS2, 1) ∧
      (TileCache.cacheTile regNone s5State optsS4).isOk = true ∧
      s4Out.state.tilesLoaded = [tS1, tS4, tS3] ∧
      alookup s4Out.state.cachesLoaded "k2" = none ∧
      (alookup s4Out.state.cachesLoaded "k1").isSome = true ∧
      (alookup s4Out.state.cachesLoaded "k3").isSome = true ∧
      (alookup s4Out.state.cachesLoaded "k4").isSome = true) := by
  constructor
  · intro tilesLoaded cutoff w wi h
    obtain ⟨hmem, hadm, hmin⟩ := findWorst_spec tilesLoaded cutoff w wi h
    refine ⟨hmem, hadm.1, hadm.2, ?_⟩
    intro t ht h1 h2
    have h4 := keyLe_of_not_keyLt (hmin t ht ⟨h1, h2⟩)
    unfold keyLe at h4
    exact h4
  · refine ⟨by decide, by decide, by decide, by decide, by decide, by decide,
      by decide⟩

/-- C4 witness: the scan lemma applied at the S5 tile list. -/
theorem c4_witness_eviction :
    tS2 ∈ [tS1, tS2, tS3] ∧ 0 < tS2.level ∧ tS2.beingDrawn = false := by
  have h := c4_thm_eviction_lru_level.1 [tS1, tS2, tS3] 0 tS2 1 (by decide)
  exact ⟨h.1, h.2.1, h.2.2.1⟩

/-! ### C5 -/

/-- The state after the lookup/create/revive phase of `cacheTile`; the
eviction check reads the counters at this point (the record write-back between
the two phases never changes a counter). -/
def lookupPhaseState (st : TileCacheState) (opts : TileCache.CacheTileOptions)
    (k : String) : TileCacheState :=
  (TileCache.cacheTileLookup st k opts.data opts.image).1

/-- C5: whenever a `cacheTile` call — on a key held by a live record, a key
held by a zombie record, or a brand-new key — finds the record count above
capacity at the eviction check with a positive zombie count, it destroys and
removes exactly one zombie record (the first in iteration order: a record
parked in the zombie tier or, when the addressed key itself heads the zombie
map, the record just returned), decrements the zombie count by one, and
evicts no live tile: every other key's live entry is untouched and
`tilesLoaded` is either unchanged or extended by the new tile. -/
theorem c5_thm_zombie_preferred_eviction (reg : Registry)
    (st : TileCacheState) (opts : TileCache.CacheTileOptions) (k : String)
    (hInv : TileCacheInv st)
    (hck : TileCache.jsOrStr opts.cacheKey opts.tile.cacheKey = k)
    (hover : (lookupPhaseState st opts k).cachesLoadedCount
        + (lookupPhaseState st opts k).zombiesLoadedCount
        > ((lookupPhaseState st opts k).maxCacheItemCount : Int))
    (hzc : (lookupPhaseState st opts k).zombiesLoadedCount > 0) :
    (TileCache.cacheTile reg st opts).isOk = true ∧
    ∀ out, TileCache.cacheTile reg st opts = .ok out →
      out.state.zombiesLoadedCount = st.zombiesLoadedCount - 1 ∧
      out.state.zombiesLoaded.length + 1 = st.zombiesLoaded.length ∧
      (∀ k2, k2 ≠ k →
        alookup out.state.cachesLoaded k2 = alookup st.cachesLoaded k2) ∧
      (out.state.tilesLoaded = st.tilesLoaded ∨
        out.state.tilesLoaded = st.tilesLoaded ++ [opts.tile]) ∧
      ∃ z : CacheRecord, z.destroy = .ok deadRecord ∧
        (z ∈ st.zombiesLoaded.map Prod.snd ∨ z = out.record) := by
  obtain ⟨hn1, hn2, hdisj, hcnt1, hcnt2, hlive, hzomb⟩ := hInv
  cases hl : alookup st.cachesLoaded k with
  | some rec =>
      have hE : lookupPhaseState st opts k = st := by
        unfold lookupPhaseState TileCache.cacheTileLookup
        rw [hl]
      rw [hE] at hover hzc
      cases hzly : st.zombiesLoaded with
      | nil =>
          exfalso
          rw [hcnt2, hzly] at hzc
          simp at hzc
      | cons head rest =>
          obtain ⟨zk, zrec⟩ := head
          have hhm : (zk, zrec) ∈ st.zombiesLoaded := by
            rw [hzly]
            exact List.mem_cons_self _ _
          have hzOk := hzomb (zk, zrec) hhm
          have hrun : TileCache.cacheTile reg st opts = .ok
              { state := TileCache.insertionBookkeeping
                  { st with
                    cachesLoaded := aset st.cachesLoaded k (rec.addTile opts.tile opts.data (TileCache.resolvedDataType reg opts.dataType opts.data)),
                    zombiesLoaded := rest,
                    zombiesLoadedCount := st.zombiesLoadedCount - 1 }
                  opts.tile st.tilesLoaded.length none,
                record := rec.addTile opts.tile opts.data (TileCache.resolvedDataType reg opts.dataType opts.data),
                assertFailures := (if opts.tile.cacheKey = "" then ["cacheKeyRequired"] else []) ++ [] } := by
            unfold TileCache.cacheTile TileCache.cacheTileLookup
            simp only []
            rw [hck, hl]
            simp only [TileCache.writeRecord]
            rw [evictionPass_zombie
              { st with cachesLoaded := aset st.cachesLoaded k (rec.addTile opts.tile opts.data (TileCache.resolvedDataType reg opts.dataType opts.data)) }
              (opts.cutoff.getD 0) zk zrec rest hover hzc hzly hzOk.2.1]
          refine ⟨by rw [hrun]; rfl, ?_⟩
          intro out h
          rw [hrun] at h
          cases h
          obtain ⟨hm1, hm2, hm3, hm4⟩ := insertionBookkeeping_maps
            { st with
              cachesLoaded := aset st.cachesLoaded k (rec.addTile opts.tile opts.data (TileCache.resolvedDataType reg opts.dataType opts.data)),
              zombiesLoaded := rest,
              zombiesLoadedCount := st.zombiesLoadedCount - 1 }
            opts.tile st.tilesLoaded.length none
          refine ⟨?_, ?_, ?_, ?_,
            ⟨zrec, destroy_of_loaded hzOk.2.1,
              Or.inl (List.mem_map_of_mem Prod.snd
                (List.mem_cons_self (zk, zrec) rest))⟩⟩
          · rw [hm4]
          · rw [hm2]
            rfl
          · intro k2 hk2
            rw [hm1]
            exact alookup_aset_ne hk2
          · exact insertionBookkeeping_none_tiles _ opts.tile _ rfl
  | none =>
      cases hz : alookup st.zombiesLoaded k with
      | some zrec =>
          have hzOk := hzomb (k, zrec) (alookup_mem hz)
          have hnd : zrec.destroyed = false := hzOk.1
          have hzld : zrec.loaded = true := hzOk.2.1
          have hE : lookupPhaseState st opts k = st := by
            unfold lookupPhaseState TileCache.cacheTileLookup
            rw [hl, hz]
            simp only []
            rw [if_neg (show ¬ (zrec.destroyed = true) by simp [hnd])]
          rw [hE] at hover hzc
          cases hsh : aset st.zombiesLoaded k (zrec.addTile opts.tile opts.data (TileCache.resolvedDataType reg opts.dataType opts.data)) with
          | nil => exact absurd hsh (aset_ne_nil _ _ _)
          | cons hd tl =>
              have hdmem : hd ∈ aset st.zombiesLoaded k (zrec.addTile opts.tile opts.data (TileCache.resolvedDataType reg opts.dataType opts.data)) := by
                rw [hsh]
                exact List.mem_cons_self _ _
              have hdld : hd.2.loaded = true := by
                rcases mem_aset hdmem with h1 | h1
                · rw [h1]
                  rw [addTile_loaded_eq zrec opts.tile _ _ hnd hzld]
                  exact hzld
                · exact (hzomb hd h1).2.1
              have hrun : TileCache.cacheTile reg st opts = .ok
                  { state := TileCache.insertionBookkeeping
                      { st with zombiesLoaded := tl, zombiesLoadedCount := st.zombiesLoadedCount - 1 }
                      opts.tile st.tilesLoaded.length none,
                    record := zrec.addTile opts.tile opts.data (TileCache.resolvedDataType reg opts.dataType opts.data),
                    assertFailures := (if opts.tile.cacheKey = "" then ["cacheKeyRequired"] else []) ++ [] } := by
                unfold TileCache.cacheTile TileCache.cacheTileLookup
                simp only []
                rw [hck, hl, hz]
                simp only []
                rw [if_neg (show ¬ (zrec.destroyed = true) by simp [hnd])]
                simp only [TileCache.writeRecord]
                rw [evictionPass_zombie
                  { st with zombiesLoaded := aset st.zombiesLoaded k (zrec.addTile opts.tile opts.data (TileCache.resolvedDataType reg opts.dataType opts.data)) }
                  (opts.cutoff.getD 0) hd.1 hd.2 tl hover hzc hsh hdld]
              refine ⟨by rw [hrun]; rfl, ?_⟩
              intro out h
              rw [hrun] at h
              cases h
              obtain ⟨hm1, hm2, hm3, hm4⟩ := insertionBookkeeping_maps
                { st with zombiesLoaded := tl, zombiesLoadedCount := st.zombiesLoadedCount - 1 }
                opts.tile st.tilesLoaded.length none
              have hlen : (aset st.zombiesLoaded k (zrec.addTile opts.tile opts.data (TileCache.resolvedDataType reg opts.dataType opts.data))).length = st.zombiesLoaded.length :=
                length_aset_of_mem hz
              rw [hsh] at hlen
              refine ⟨?_, ?_, ?_, ?_, ⟨hd.2, destroy_of_loaded hdld, ?_⟩⟩
              · rw [hm4]
              · rw [hm2]
                exact hlen
              · intro k2 hk2
                rw [hm1]
              · exact insertionBookkeeping_none_tiles _ opts.tile _ rfl
              · rcases mem_aset hdmem with h1 | h1
                · exact Or.inr (by rw [h1])
                · exact Or.inl (List.mem_map_of_mem Prod.snd h1)
      | none =>
          have hE : lookupPhaseState st opts k =
              { st with cachesLoaded := aset st.cachesLoaded k CacheRecord.fresh,
                        cachesLoadedCount := st.cachesLoadedCount + 1 } := by
            unfold lookupPhaseState TileCache.cacheTileLookup
            rw [hl, hz]
          rw [hE] at hover hzc
          cases hzly : st.zombiesLoaded with
          | nil =>
              exfalso
              have hzc2 : st.zombiesLoadedCount > 0 := hzc
              rw [hcnt2, hzly] at hzc2
              simp at hzc2
          | cons head rest =>
              obtain ⟨zk, zrec⟩ := head
              have hhm : (zk, zrec) ∈ st.zombiesLoaded := by
                rw [hzly]
                exact List.mem_cons_self _ _
              have hzOk := hzomb (zk, zrec) hhm
              have hrun : TileCache.cacheTile reg st opts = .ok
                  { state := TileCache.insertionBookkeeping
                      { st with
                        cachesLoaded := aset st.cachesLoaded k (CacheRecord.fresh.addTile opts.tile (if opts.data = .undef then opts.image else opts.data) (TileCache.resolvedDataType reg opts.dataType (if opts.data = .undef then opts.image else opts.data))),
                        cachesLoadedCount := st.cachesLoadedCount + 1,
                        zombiesLoaded := rest,
                        zombiesLoadedCount := st.zombiesLoadedCount - 1 }
                      opts.tile st.tilesLoaded.length none,
                    record := CacheRecord.fresh.addTile opts.tile (if opts.data = .undef then opts.image else opts.data) (TileCache.resolvedDataType reg opts.dataType (if opts.data = .undef then opts.image else opts.data)),
                    assertFailures := (if opts.tile.cacheKey = "" then ["cacheKeyRequired"] else []) ++ (if isValidData (if opts.data = .undef then opts.image else opts.data) then [] else ["dataRequired"]) } := by
                unfold TileCache.cacheTile TileCache.cacheTileLookup
                simp only []
                rw [hck, hl, hz]
                simp only [TileCache.writeRecord, aset_aset]
                rw [evictionPass_zombie
                  { st with cachesLoaded := aset st.cachesLoaded k (CacheRecord.fresh.addTile opts.tile (if opts.data = .undef then opts.image else opts.data) (TileCache.resolvedDataType reg opts.dataType (if opts.data = .undef then opts.image else opts.data))),
                            cachesLoadedCount := st.cachesLoadedCount + 1 }
                  (opts.cutoff.getD 0) zk zrec rest hover hzc hzly hzOk.2.1]
              refine ⟨by rw [hrun]; rfl, ?_⟩
              intro out h
              rw [hrun] at h
              cases h
              obtain ⟨hm1, hm2, hm3, hm4⟩ := insertionBookkeeping_maps
                { st with
                  cachesLoaded := aset st.cachesLoaded k (CacheRecord.fresh.addTile opts.tile (if opts.data = .undef then opts.image else opts.data) (TileCache.resolvedDataType reg opts.dataType (if opts.data = .undef then opts.image else opts.data))),
                  cachesLoadedCount := st.cachesLoadedCount + 1,
                  zombiesLoaded := rest,
                  zombiesLoadedCount := st.zombiesLoadedCount - 1 }
                opts.tile st.tilesLoaded.length none
              refine ⟨?_, ?_, ?_, ?_,
                ⟨zrec, destroy_of_loaded hzOk.2.1,
                  Or.inl (List.mem_map_of_mem Prod.snd
                    (List.mem_cons_self (zk, zrec) rest))⟩⟩
              · rw [hm4]
              · rw [hm2]
                rfl
              · intro k2 hk2
                rw [hm1]
                exact alookup_aset_ne hk2
              · exact insertionBookkeeping_none_tiles _ opts.tile _ rfl

def tL : Tile :=
  { id := 60, cacheKey := "L", level := 1, lastTouchTime := 0,
    beingDrawn := false, loaded := true, tiledImage := imgA,
    caches := ["L"], cacheSize := 1 }

def tL2 : Tile :=
  { id := 61, cacheKey := "L", level := 1, lastTouchTime := 1,
    beingDrawn := false, loaded := true, tiledImage := imgA,
    caches := ["L"], cacheSize := 0 }

/-- A parked zombie record. -/
def zrecW : CacheRecord :=
  { tiles := [], data := .strV "Z", type := some "raw", loaded := true,
    promise := some (.strV "Z"), destroyed := false }

/-- One live record plus one zombie in a capacity-1 cache: over capacity. -/
def s5wState : TileCacheState :=
  { cachesLoaded := [("L", mkLiveRec tL "DL")],
    zombiesLoaded := [("Z", zrecW)], cachesLoadedCount := 1,
    zombiesLoadedCount := 1, tilesLoaded := [tL], maxCacheItemCount := 1 }

/-- Three live records filling a capacity-3 cache plus one parked zombie:
total 4 > capacity 3, so the next `cacheTile` triggers the eviction pass. -/
def s4wState : TileCacheState :=
  { s5State with zombiesLoaded := [("Z", zrecW)], zombiesLoadedCount := 1 }

/-- C5 witness: in the over-capacity state with three live records and one
zombie, `cacheTile` on a brand-new key succeeds (and, by the theorem, destroys
and removes exactly that zombie and evicts no live tile). -/
theorem c5_witness_zombie_eviction :
    (TileCache.cacheTile regNone s4wState optsS4).isOk = true :=
  (c5_thm_zombie_preferred_eviction regNone s4wState optsS4 "k4"
    (by decide) rfl (by decide) (by decide)).1

/-! ### C10 -/

/-- C10: the `options.data` validity check of `cacheTile` is only reached when
no record exists for the resolved key.  When the key already has a live or
zombie record, the call returns normally, attaches the tile to that record,
and logs no `options.data is required` assertion failure, even for `data`
equal to `undefined`, `null` or `false`. -/
theorem c10_thm_data_check_only_on_create (reg : Registry)
    (st : TileCacheState) (opts : TileCache.CacheTileOptions) (k : String)
    (hInv : TileCacheInv st)
    (hck : TileCache.jsOrStr opts.cacheKey opts.tile.cacheKey = k)
    (hfound : (TileCache.getCacheRecord st k).isSome = true)
    (hbad : isValidData opts.data = false) :
    (TileCache.cacheTile reg st opts).isOk = true ∧
    ∀ out, TileCache.cacheTile reg st opts = .ok out →
      opts.tile ∈ out.record.tiles ∧
      "dataRequired" ∉ out.assertFailures := by
  unfold TileCache.getCacheRecord at hfound
  unfold TileCache.cacheTile TileCache.cacheTileLookup
  simp only []
  rw [hck]
  cases hl : alookup st.cachesLoaded k with
  | some rec =>
      simp only [TileCache.writeRecord]
      have hro := hInv.2.2.2.2.2.1 (k, rec) (alookup_mem hl)
      obtain ⟨⟨st3, wi⟩, hok3, _⟩ := evictionPass_total _ (opts.cutoff.getD 0)
        (inv_aset_live hl hInv (addTile_recLiveOk opts.tile opts.data
          (TileCache.resolvedDataType reg opts.dataType opts.data) hro))
      rw [hok3]
      refine ⟨rfl, ?_⟩
      intro out h
      cases h
      refine ⟨addTile_mem rec opts.tile _ _ hro.1, ?_⟩
      simp only [List.append_nil]
      split
      · decide
      · decide
  | none =>
      rw [hl] at hfound
      simp only [] at hfound
      cases hzl : alookup st.zombiesLoaded k with
      | none =>
          rw [hzl] at hfound
          simp at hfound
      | some zrec =>
          have hzOk := hInv.2.2.2.2.2.2 (k, zrec) (alookup_mem hzl)
          have hznd : zrec.destroyed = false := hzOk.1
          simp only []
          rw [if_neg (show ¬ (zrec.destroyed = true) by simp [hznd])]
          simp only [TileCache.writeRecord]
          obtain ⟨⟨st3, wi⟩, hok3, _⟩ := evictionPass_total _ (opts.cutoff.getD 0)
            (inv_aset_zombie hzl hInv (addTile_recZombieOk opts.tile opts.data
              (TileCache.resolvedDataType reg opts.dataType opts.data) hzOk))
          rw [hok3]
          refine ⟨rfl, ?_⟩
          intro out h
          cases h
          refine ⟨addTile_mem zrec opts.tile _ _ hzOk.1, ?_⟩
          simp only [List.append_nil]
          split
          · decide
          · decide

def optsBad : TileCache.CacheTileOptions :=
  { tile := tL2, cacheKey := none, data := .null, image := .undef,
    dataType := some "raw", cutoff := none }

/-- C10 witness: `cacheTile` with `data = null` on a key holding a live record
returns normally. -/
theorem c10_witness_existing_record :
    (TileCache.cacheTile regNone s5wState optsBad).isOk = true :=
  (c10_thm_data_check_only_on_create regNone s5wState optsBad "L"
    (by decide) rfl (by decide) (by decide)).1

end OsdTileCache
